import Mathlib

/-!
Verification of the Dali Dream Garden placement engine
(src/object-manage/osc-sender.js, second module: the object manager with
timestamps and prioritized positions).

The static catalog module object-location-data.js (LocationData,
ObjectLocationData, PrioritizedPositionMap) is not part of the source tree,
so every operation here is parametric in an `Env` holding those three
tables; theorems quantify over the environment.

The source keeps two parallel arrays `objects[]` and `locations[]` that are
always spliced and pushed at the same index, so the embedding stores them as
one list of pairs `occ`, with projections named `objects` and `locations`.
JavaScript's `undefined` location value (which can be pushed in the
degenerate case of an object with no catalog slots) is modelled as `none`,
so an entry of `locations` has type `Option String`.

`Math.floor(Math.random() * n)` draws are injected as natural numbers
`r1`, `r2` reduced modulo the list length (`List.get?` at `r % length`,
which is `none` exactly when the list is empty, matching the `undefined`
JavaScript produces there). `Date.now()` is injected as `now`.
-/

namespace Dali

/-- One entry of `ObjectLocationData`: display name and the list of
permitted location types (`location` in the source). -/
structure ObjectDef where
  name : String
  location : List String
deriving DecidableEq

/-- The static catalog from object-location-data.js, absent from the source
tree: location types to concrete location ids, the object database, and the
prioritized-position table.  Unknown keys behave like JavaScript's
`undefined` (`[]` respectively `none`). -/
structure Env where
  LocationData : String → List String
  ObjectLocationData : String → Option ObjectDef
  PrioritizedPositionMap : String → Option String

/-- The singleton garden state (osc-sender.js lines 173-180).  `occ` fuses
the parallel arrays `objects[]` and `locations[]`. -/
structure GardenData where
  occ : List (String × Option String)
  addingOrder : List String
  objectTimestamps : List (String × Nat)
  stateVersion : Nat
  lastModified : Nat
deriving DecidableEq

/-- The `objects[]` array of the source. -/
def GardenData.objects (g : GardenData) : List String := g.occ.map Prod.fst

/-- The `locations[]` array of the source. -/
def GardenData.locations (g : GardenData) : List (Option String) := g.occ.map Prod.snd

/-- `delete GardenData.objectTimestamps[k]`. -/
def tsDelete (ts : List (String × Nat)) (k : String) : List (String × Nat) :=
  ts.filter (fun p => ¬ p.1 = k)

/-- `GardenData.objectTimestamps[k] = v` (overwrite or append). -/
def tsSet (ts : List (String × Nat)) (k : String) (v : Nat) : List (String × Nat) :=
  if ts.any (fun p => p.1 = k) then ts.map (fun p => if p.1 = k then (k, v) else p)
  else ts ++ [(k, v)]

/-- One OSC placement/removal event (`sendObjectEvent` call), tagged with
the removal reason the code records alongside it (`none` for additions and
for removals the source records no reason for). -/
structure Event where
  objectId : String
  location : Option String
  isAdd : Bool
  reason : Option String
deriving DecidableEq

/-- A `removedObject` descriptor. -/
structure RemovedInfo where
  id : String
  name : String
  location : Option String
  reason : String
deriving DecidableEq

/-- Intermediate state of one add: garden, the `removedObject` variable,
and the OSC events sent so far. -/
structure Phase where
  g : GardenData
  removed : Option RemovedInfo
  events : List Event
deriving DecidableEq

/-- `getPrioritizedLocations` (osc-sender.js lines 293-327): split an
object's locations into prioritized and fallback lists. -/
def getPrioritizedLocations (env : Env) (objectId : String)
    (validLocationTypes : List String) : List String × List String :=
  match env.PrioritizedPositionMap objectId with
  | some prioritizedType =>
      (env.LocationData prioritizedType,
       ((validLocationTypes.filter (fun t => ¬ t = prioritizedType)).map
          env.LocationData).flatten)
  | none => ([], (validLocationTypes.map env.LocationData).flatten)

/-- `updateStateMetadata` (lines 191-198): bump the version and stamp the
modification time (the timer side effect is the idle monitor, modelled
separately). -/
def updateStateMetadata (now : Nat) (g : GardenData) : GardenData :=
  { g with stateVersion := g.stateVersion + 1, lastModified := now }

/-- Duplicate-handling phase of `addObject` (lines 343-368): if the object
is already placed, remove it (and its adding-order entry and timestamp) and
send a removal event with reason `duplicate`. -/
def dupPhase (objectData : ObjectDef) (objId : String) (g0 : GardenData) : Phase :=
  match g0.occ.findIdx? (fun p => p.1 = objId) with
  | some existingIndex =>
      let remLoc := (g0.occ.getD existingIndex ("", none)).2
      { g := { g0 with
                occ := g0.occ.eraseIdx existingIndex,
                addingOrder := g0.addingOrder.erase objId,
                objectTimestamps := tsDelete g0.objectTimestamps objId },
        removed := some ⟨objId, objectData.name, remLoc, "duplicate"⟩,
        events := [⟨objId, remLoc, false, some "duplicate"⟩] }
  | none => { g := g0, removed := none, events := [] }

/-- The displacement target of the forced phase (lines 394-411): a random
occupied prioritized location if any exists, else a random location among
all permitted ones. -/
def forcedLocationOf (r1 : Nat)
    (prioritizedLocations allPossibleLocations : List String)
    (g : GardenData) : Option String :=
  let occupiedPrioritizedLocations :=
    prioritizedLocations.filter (fun l => some l ∈ g.locations)
  if 0 < occupiedPrioritizedLocations.length then
    occupiedPrioritizedLocations.get? (r1 % occupiedPrioritizedLocations.length)
  else
    allPossibleLocations.get? (r1 % allPossibleLocations.length)

/-- The eviction body of the forced-displacement branch (lines 413-443):
find the occupant of the displacement target, evict it, record the
`forced_displacement` removal (unless it coincides with the
already-removed duplicate), and send its removal event. -/
def forcedEvict (env : Env) (forcedLocation : Option String) (ph : Phase) : Phase :=
  match ph.g.occ.findIdx? (fun p => p.2 = forcedLocation) with
  | some occupiedIndex =>
      let displacedObjectId := (ph.g.occ.getD occupiedIndex ("", none)).1
      let displacedName :=
        ((env.ObjectLocationData displacedObjectId).map ObjectDef.name).getD ""
      { g := { ph.g with
                occ := ph.g.occ.eraseIdx occupiedIndex,
                addingOrder := ph.g.addingOrder.erase displacedObjectId,
                objectTimestamps := tsDelete ph.g.objectTimestamps displacedObjectId },
        removed :=
          match ph.removed with
          | none => some ⟨displacedObjectId, displacedName, forcedLocation,
                          "forced_displacement"⟩
          | some r =>
              if ¬ r.id = displacedObjectId then
                some ⟨displacedObjectId, displacedName, forcedLocation,
                      "forced_displacement"⟩
              else some r,
        events := ph.events ++
          [⟨displacedObjectId, forcedLocation, false, some "forced_displacement"⟩] }
  | none => ph

/-- Forced-displacement phase (lines 391-447), entered when no permitted
location is free: pick the displacement target, evict its occupant, and
push the freed location onto the available list (the push happens whether
or not anything was evicted). -/
def forcedPhase (env : Env) (r1 : Nat)
    (prioritizedLocations allPossibleLocations : List String)
    (availableLocations0 : List (Option String)) (ph : Phase) :
    Phase × List (Option String) :=
  (forcedEvict env (forcedLocationOf r1 prioritizedLocations allPossibleLocations ph.g) ph,
   availableLocations0 ++ [forcedLocationOf r1 prioritizedLocations allPossibleLocations ph.g])

/-- Oldest-eviction body shared by both capacity checks (lines 452-475 and
794-822): read the head of `addingOrder`, find it among the objects, and
evict it with reason `oldest`. -/
def evictOldest (ph : Phase) : Phase :=
  match ph.g.addingOrder.head? with
  | none => ph
  | some oldestObjectId =>
      match ph.g.occ.findIdx? (fun p => p.1 = oldestObjectId) with
      | none => ph
      | some oldestIndex =>
          let oldLoc := (ph.g.occ.getD oldestIndex ("", none)).2
          { g := { ph.g with
                    occ := ph.g.occ.eraseIdx oldestIndex,
                    addingOrder := ph.g.addingOrder.tail,
                    objectTimestamps := tsDelete ph.g.objectTimestamps oldestObjectId },
            removed := some ⟨oldestObjectId, "", oldLoc, "oldest"⟩,
            events := ph.events ++ [⟨oldestObjectId, oldLoc, false, some "oldest"⟩] }

/-- Capacity phase of the single `addObject` (line 450): evict the oldest
only when the garden is full *and* nothing was removed yet. -/
def capacityPhase (ph : Phase) : Phase :=
  if 22 ≤ ph.g.objects.length ∧ ph.removed = none then evictOldest ph else ph

/-- Capacity phase of the batch item (line 793): evict the oldest whenever
the garden is full, with no removed-object guard. -/
def capacityPhaseBatch (ph : Phase) : Phase :=
  if 22 ≤ ph.g.objects.length then evictOldest ph else ph

/-- Placement phase (lines 492-502): push the object at the selected
location, append to the adding order, record the timestamp, send the
addition event. -/
def placePhase (now : Nat) (objId : String) (selectedLocation : Option String)
    (ph : Phase) : Phase :=
  { g := { ph.g with
            occ := ph.g.occ ++ [(objId, selectedLocation)],
            addingOrder := ph.g.addingOrder ++ [objId],
            objectTimestamps := tsSet ph.g.objectTimestamps objId now },
    removed := ph.removed,
    events := ph.events ++ [⟨objId, selectedLocation, true, none⟩] }

/-- Location-selection phase (lines 479-490): prefer a free prioritized
location, else draw from the available list (which in the forced case is
exactly the freed location). -/
def selectLocation (r2 : Nat) (availablePrioritizedLocations : List String)
    (availableLocations : List (Option String)) : Option String :=
  if 0 < availablePrioritizedLocations.length then
    availablePrioritizedLocations.get? (r2 % availablePrioritizedLocations.length)
  else
    (availableLocations.get? (r2 % availableLocations.length)).getD none

/-- The full location pipeline of one add (lines 370-502), shared between
the single and the batch versions, parametrized over the capacity phase. -/
def addPipeline (capacity : Phase → Phase) (env : Env) (now r1 r2 : Nat)
    (objId : String) (objectData : ObjectDef) (g0 : GardenData) : Phase :=
  let ph1 := dupPhase objectData objId g0
  let pf := getPrioritizedLocations env objId objectData.location
  let prioritizedLocations := pf.1
  let fallbackLocations := pf.2
  let availablePrioritizedLocations :=
    prioritizedLocations.filter (fun l => ¬ some l ∈ ph1.g.locations)
  let availableFallbackLocations :=
    fallbackLocations.filter (fun l => ¬ some l ∈ ph1.g.locations)
  let availableLocations0 : List (Option String) :=
    (availablePrioritizedLocations ++ availableFallbackLocations).map some
  let allPossibleLocations := prioritizedLocations ++ fallbackLocations
  let s5 :=
    if availableLocations0.length = 0 then
      forcedPhase env r1 prioritizedLocations allPossibleLocations availableLocations0 ph1
    else (ph1, availableLocations0)
  let ph3 := capacity s5.1
  let selectedLocation := selectLocation r2 availablePrioritizedLocations s5.2
  placePhase now objId selectedLocation ph3

/-- Result of `addObject`: success flag, the `removedObject` descriptor,
the ordered OSC events, the state snapshot of the response (absent on
failure), and the resulting garden state. -/
structure AddOut where
  success : Bool
  removedObject : Option RemovedInfo
  events : List Event
  snapshot : Option GardenData
  g : GardenData
deriving DecidableEq

/-- `addObject` (osc-sender.js lines 329-528). -/
def addObject (env : Env) (now r1 r2 : Nat) (objectId : String)
    (g0 : GardenData) : AddOut :=
  match env.ObjectLocationData objectId with
  | none =>
      { success := false, removedObject := none, events := [],
        snapshot := none, g := g0 }
  | some objectData =>
      let ph := addPipeline capacityPhase env now r1 r2 objectId objectData g0
      let gF := updateStateMetadata now ph.g
      { success := true, removedObject := ph.removed, events := ph.events,
        snapshot := some gF, g := gF }

/-- One item of the batch loop of `addObjectsBatch` (lines 668-869):
identical to `addObject` except for the capacity-check condition and for
the absence of a per-item version bump.  Returns the new state, the item's
events, and its success flag. -/
def addBatchItem (env : Env) (now r1 r2 : Nat) (objectId : String)
    (g0 : GardenData) : GardenData × List Event × Bool :=
  match env.ObjectLocationData objectId with
  | none => (g0, [], false)
  | some objectData =>
      let ph := addPipeline capacityPhaseBatch env now r1 r2 objectId objectData g0
      (ph.g, ph.events, true)

/-- Result of `removeObject`. -/
structure RemoveOut where
  success : Bool
  events : List Event
  snapshot : Option GardenData
  g : GardenData
deriving DecidableEq

/-- `removeObject` (lines 541-591). -/
def removeObject (_env : Env) (now : Nat) (objectId : String)
    (g0 : GardenData) : RemoveOut :=
  match g0.occ.findIdx? (fun p => p.1 = objectId) with
  | none => { success := false, events := [], snapshot := none, g := g0 }
  | some objectIndex =>
      let location := (g0.occ.getD objectIndex ("", none)).2
      let g1 := { g0 with
                   occ := g0.occ.eraseIdx objectIndex,
                   addingOrder := g0.addingOrder.erase objectId,
                   objectTimestamps := tsDelete g0.objectTimestamps objectId }
      let gF := updateStateMetadata now g1
      { success := true, events := [⟨objectId, location, false, none⟩],
        snapshot := some gF, g := gF }

/-- `clearGarden` (lines 593-616): send a removal event per occupant, wipe
the state, bump the version; returns only the state snapshot (the source
returns `getGardenState()` with no success flag). -/
def clearGarden (now : Nat) (g0 : GardenData) : GardenData × List Event × GardenData :=
  let events := g0.occ.map (fun p => Event.mk p.1 p.2 false none)
  let gF := updateStateMetadata now
    { g0 with occ := [], addingOrder := [], objectTimestamps := [] }
  (gF, events, gF)

/-- The `clearFirst` prologue of `addObjectsBatch` (lines 634-665): record
a `cleared` removal event per occupant and wipe the state without a version
bump. -/
def clearPhase (g0 : GardenData) : GardenData × List Event :=
  ({ g0 with occ := [], addingOrder := [], objectTimestamps := [] },
   g0.occ.map (fun p => Event.mk p.1 p.2 false (some "cleared")))

/-- The item loop of `addObjectsBatch`, consuming one injected random pair
per item.  Returns the final state, the concatenated events, the success
count and the failure count. -/
def addBatchLoop (env : Env) (now : Nat) :
    List String → List (Nat × Nat) → GardenData →
    GardenData × List Event × Nat × Nat
  | [], _, g => (g, [], 0, 0)
  | objectId :: rest, rs, g =>
      let r := rs.headD (0, 0)
      let item := addBatchItem env now r.1 r.2 objectId g
      let next := addBatchLoop env now rest rs.tail item.1
      (next.1, item.2.1 ++ next.2.1,
       (if item.2.2 then 1 else 0) + next.2.2.1,
       (if item.2.2 then 0 else 1) + next.2.2.2)

/-- Result of `addObjectsBatch`: the source always returns
`success: true` together with the summary and `getGardenState()`. -/
structure BatchOut where
  success : Bool
  events : List Event
  successCount : Nat
  failCount : Nat
  snapshot : GardenData
  g : GardenData
deriving DecidableEq

/-- `addObjectsBatch` (lines 625-888): optional clear, ordered application
of the per-item add, one version bump for the whole batch. -/
def addObjectsBatch (env : Env) (now : Nat) (objectIds : List String)
    (clearFirst : Bool) (rs : List (Nat × Nat)) (g0 : GardenData) : BatchOut :=
  let cleared := if clearFirst then clearPhase g0 else (g0, [])
  let loop := addBatchLoop env now objectIds rs cleared.1
  let gF := updateStateMetadata now loop.1
  { success := true, events := cleared.2 ++ loop.2.1,
    successCount := loop.2.2.1, failCount := loop.2.2.2,
    snapshot := gF, g := gF }

/-- Result of a non-trivial `removeOldestHalf` run. -/
structure CleanupOut where
  removedCount : Nat
  events : List Event
  snapshot : GardenData
deriving DecidableEq

/-- The removal loop of `removeOldestHalf` (lines 242-268): remove each
listed object from the paired arrays and the timestamp map (the adding
order is sliced afterwards, outside this loop), sending one removal event
each. -/
def removeLoop : List String → GardenData → GardenData × List Event
  | [], g => (g, [])
  | objId :: rest, g =>
      match g.occ.findIdx? (fun p => p.1 = objId) with
      | some objectIndex =>
          let location := (g.occ.getD objectIndex ("", none)).2
          let g' := { g with
                       occ := g.occ.eraseIdx objectIndex,
                       objectTimestamps := tsDelete g.objectTimestamps objId }
          let next := removeLoop rest g'
          (next.1, ⟨objId, location, false, some "auto_cleanup_inactivity"⟩ :: next.2)
      | none => removeLoop rest g

/-- `removeOldestHalf` (lines 221-285): no-op returning nothing when fewer
than two occupants; otherwise evict the oldest `floor(n/2)` occupants,
bump the version once, and return a result object. -/
def removeOldestHalf (now : Nat) (g0 : GardenData) :
    GardenData × Option CleanupOut :=
  if g0.objects.length = 0 then (g0, none)
  else
    let countToRemove := g0.objects.length / 2
    if countToRemove = 0 then (g0, none)
    else
      let objectsToRemove := g0.addingOrder.take countToRemove
      let run := removeLoop objectsToRemove g0
      let gF := { run.1 with
                   addingOrder := g0.addingOrder.drop countToRemove,
                   stateVersion := run.1.stateVersion + 1,
                   lastModified := now }
      (gF, some ⟨run.2.length, run.2, gF⟩)

/-- Whether `resetInactivityTimer` (lines 203-216) arms the idle timer:
only when the garden is non-empty. -/
def idleTimerArmed (g : GardenData) : Bool := 0 < g.objects.length

/-- The idle-timeout callback the source arms (lines 211-214): it calls
`removeOldestHalf`, not the documented reinitialization. -/
def idleFire (now : Nat) (g : GardenData) : GardenData × Option CleanupOut :=
  removeOldestHalf now g

/-- The fixed default object list of `initializeGarden` (line 901). -/
def defaultObjects : List String := ["18", "1", "3", "16", "15", "4"]

/-- Result of `initializeGarden`. -/
structure InitOut where
  success : Bool
  snapshot : GardenData
  events : List Event
  g : GardenData
deriving DecidableEq

/-- `initializeGarden` (lines 894-920): clear (with its own version bump),
then batch-add the default objects (second version bump). -/
def initializeGarden (env : Env) (now1 now2 : Nat) (rs : List (Nat × Nat))
    (g0 : GardenData) : InitOut :=
  let cleared := clearGarden now1 g0
  let batch := addObjectsBatch env now2 defaultObjects false rs cleared.1
  { success := true, snapshot := batch.snapshot,
    events := cleared.2.1 ++ batch.events, g := batch.g }

/-- One mutation step of the command surface. -/
inductive Step (env : Env) : GardenData → GardenData → Prop
  | add (now r1 r2 : Nat) (objectId : String) (g : GardenData) :
      Step env g (addObject env now r1 r2 objectId g).g
  | remove (now : Nat) (objectId : String) (g : GardenData) :
      Step env g (removeObject env now objectId g).g
  | batch (now : Nat) (objectIds : List String) (clearFirst : Bool)
      (rs : List (Nat × Nat)) (g : GardenData) :
      Step env g (addObjectsBatch env now objectIds clearFirst rs g).g
  | clear (now : Nat) (g : GardenData) :
      Step env g (clearGarden now g).1
  | cleanup (now : Nat) (g : GardenData) :
      Step env g (removeOldestHalf now g).1
  | reinit (now1 now2 : Nat) (rs : List (Nat × Nat)) (g : GardenData) :
      Step env g (initializeGarden env now1 now2 rs g).g

/-- The initial empty garden state (lines 173-180). -/
def initialGarden (t0 : Nat) : GardenData :=
  { occ := [], addingOrder := [], objectTimestamps := [],
    stateVersion := 0, lastModified := t0 }

/-- A state reachable by operations from the initial state. -/
def Reachable (env : Env) (g : GardenData) : Prop :=
  ∃ t0, Relation.ReflTransGen (Step env) (initialGarden t0) g

/-- The engine invariant: bounded occupancy, distinct objects, distinct
locations, the adding order a permutation of the objects, and the timestamp
keys a permutation of the objects. -/
structure Inv (g : GardenData) : Prop where
  card_le : g.objects.length ≤ 22
  obj_nodup : g.objects.Nodup
  loc_nodup : g.locations.Nodup
  order_perm : g.addingOrder.Perm g.objects
  ts_perm : (g.objectTimestamps.map Prod.fst).Perm g.objects

/-- Iterated application of the single-object `addObject` in input order,
consuming one injected random pair per item and collecting events. -/
def iterateAdds (env : Env) (now : Nat) :
    List String → List (Nat × Nat) → GardenData → GardenData × List Event
  | [], _, g => (g, [])
  | objectId :: rest, rs, g =>
      let r := rs.headD (0, 0)
      let out := addObject env now r.1 r.2 objectId g
      let next := iterateAdds env now rest rs.tail out.g
      (next.1, out.events ++ next.2)

/-- The decision-relevant part of the garden state: everything except the
version counter and the modification time. -/
def coreOf (g : GardenData) :
    List (String × Option String) × List String × List (String × Nat) :=
  (g.occ, g.addingOrder, g.objectTimestamps)

/-- Overwrite only the metadata fields. -/
def withMeta (v m : Nat) (g : GardenData) : GardenData :=
  { g with stateVersion := v, lastModified := m }

/-- Lift `withMeta` to a phase. -/
def phMeta (v m : Nat) (ph : Phase) : Phase :=
  ⟨withMeta v m ph.g, ph.removed, ph.events⟩

/-! ### Concrete environments and states for witnesses -/

/-- The empty catalog: every lookup misses, exactly as JavaScript's
`undefined` would. -/
def env0 : Env := ⟨fun _ => [], fun _ => none, fun _ => none⟩

/-- A two-occupant garden used to evaluate the idle-fire behavior. -/
def gTwo : GardenData :=
  { occ := [("1", some "M1"), ("3", some "B2")], addingOrder := ["1", "3"],
    objectTimestamps := [("1", 5), ("3", 6)], stateVersion := 4, lastModified := 6 }

/-- A five-occupant garden for the cleanup witness. -/
def g5 : GardenData :=
  { occ := [("1", some "M1"), ("2", some "M2"), ("3", some "B1"),
            ("4", some "B2"), ("5", some "H1")],
    addingOrder := ["1", "2", "3", "4", "5"],
    objectTimestamps := [("1", 1), ("2", 2), ("3", 3), ("4", 4), ("5", 5)],
    stateVersion := 9, lastModified := 5 }

/-- A small concrete catalog for witnesses: two Main slots and three
objects permitted only on Main. -/
def envA : Env :=
  ⟨fun t => if t = "M" then ["M1", "M2"] else [],
   fun o => if o = "1" then some ⟨"HandButterfly", ["M"]⟩
            else if o = "2" then some ⟨"BreadHead", ["M"]⟩
            else if o = "7" then some ⟨"EggEye", ["M"]⟩ else none,
   fun _ => none⟩

/-- A garden holding object "1" at M1. -/
def gDup : GardenData :=
  { occ := [("1", some "M1")], addingOrder := ["1"],
    objectTimestamps := [("1", 3)], stateVersion := 2, lastModified := 3 }

/-- A garden occupying both Main slots, for the forced-displacement
witness. -/
def gFull : GardenData :=
  { occ := [("1", some "M1"), ("2", some "M2")], addingOrder := ["1", "2"],
    objectTimestamps := [("1", 1), ("2", 2)], stateVersion := 5, lastModified := 2 }

/-! ### List toolkit -/

section ListToolkit

variable {α : Type*} {β : Type*}

/-- Split a list at the index returned by `findIdx?`: everything before the
hit fails the predicate and the hit satisfies it. -/
theorem findIdx?_split {p : α → Bool} :
    ∀ {l : List α} {i : Nat}, l.findIdx? p = some i →
      ∃ A a B, l = A ++ a :: B ∧ A.length = i ∧ p a = true ∧ ∀ x ∈ A, p x = false := by
  intro l
  induction l with
  | nil => intro i h; simp [List.findIdx?] at h
  | cons x xs ih =>
    intro i h
    rw [List.findIdx?_cons] at h
    by_cases hx : p x
    · refine ⟨[], x, xs, by simp, ?_, hx, by simp⟩
      simp [hx] at h
      simpa using h
    · simp only [hx, if_false, Bool.false_eq_true, List.findIdx?_succ] at h
      rcases Option.map_eq_some'.mp h with ⟨j, hj, hij⟩
      rcases ih hj with ⟨A, a, B, hl, hlen, hpa, hA⟩
      refine ⟨x :: A, a, B, by simp [hl], by simp [hlen, hij], hpa, ?_⟩
      intro y hy
      rcases List.mem_cons.mp hy with rfl | hy
      · simpa using hx
      · exact hA y hy

theorem eraseIdx_append_length (A : List α) (a : α) (B : List α) :
    (A ++ a :: B).eraseIdx A.length = A ++ B := by
  induction A with
  | nil => simp
  | cons x xs ih => simpa [List.eraseIdx_cons_succ] using ih

theorem getD_append_length (A : List α) (a : α) (B : List α) (d : α) :
    (A ++ a :: B).getD A.length d = a := by
  induction A with
  | nil => simp
  | cons x xs ih => simpa using ih

theorem erase_append_not_mem [DecidableEq α] {A : List α} {a : α} (B : List α)
    (hA : ∀ x ∈ A, ¬ x = a) : (A ++ a :: B).erase a = A ++ B := by
  induction A with
  | nil => simp
  | cons x xs ih =>
    have hx : ¬ x = a := hA x (by simp)
    have ihh := ih (fun y hy => hA y (by simp [hy]))
    simp only [List.cons_append]
    rw [List.erase_cons_tail (by simpa using hx), ihh]

theorem filter_eq_self_of_no_match {p : α → Bool} {l : List α}
    (h : ∀ x ∈ l, p x = false) : l.filter (fun x => ¬ p x = true) = l := by
  induction l with
  | nil => simp
  | cons x xs ih =>
    simp only [List.filter_cons, h x (by simp), ih (fun y hy => h y (by simp [hy]))]
    simp

theorem map_filter_fst (f : α → β) (q : β → Bool) (l : List α) :
    (l.filter (fun x => q (f x))).map f = (l.map f).filter q := by
  induction l with
  | nil => simp
  | cons x xs ih =>
    by_cases hx : q (f x) <;> simp [List.filter_cons, hx, ih]

theorem findIdx?_proj_spec [DecidableEq β] {f : α → β} {b : β} {l : List α} {i : Nat}
    (h : l.findIdx? (fun x => f x = b) = some i) :
    ∃ A q B, l = A ++ q :: B ∧ A.length = i ∧ f q = b ∧ ∀ x ∈ A, ¬ f x = b := by
  rcases findIdx?_split h with ⟨A, q, B, h1, h2, h3, h4⟩
  refine ⟨A, q, B, h1, h2, by simpa using h3, fun x hx => by simpa using h4 x hx⟩

theorem findIdx?_proj_none [DecidableEq β] {f : α → β} {b : β} {l : List α}
    (h : l.findIdx? (fun x => f x = b) = none) : b ∉ l.map f := by
  rw [List.findIdx?_eq_none_iff] at h
  intro hb
  rcases List.mem_map.mp hb with ⟨x, hx, hfx⟩
  have := h x hx
  simp [hfx] at this

theorem map_erase_of_split [DecidableEq β] {f : α → β} {A B : List α} {q : α}
    (hn : ((A ++ q :: B).map f).Nodup) :
    (A ++ B).map f = ((A ++ q :: B).map f).erase (f q) := by
  have hn' : (List.map f A ++ f q :: List.map f B).Nodup := by simpa using hn
  rcases List.nodup_append.mp hn' with ⟨_, _, hdisj⟩
  have hA : ∀ y ∈ List.map f A, ¬ y = f q := by
    intro y hy hyq
    exact hdisj hy (by simp [hyq])
  have h := erase_append_not_mem (List.map f B) hA
  simpa using h.symm

theorem split_nodup_fst [DecidableEq β] {f : α → β} {A B : List α} {q : α}
    (hn : ((A ++ q :: B).map f).Nodup) :
    (∀ x ∈ A, ¬ f x = f q) ∧ (∀ x ∈ B, ¬ f x = f q) := by
  have hn' : (List.map f A ++ f q :: List.map f B).Nodup := by simpa using hn
  rcases List.nodup_append.mp hn' with ⟨_, hnB, hdisj⟩
  refine ⟨fun x hx hxq => hdisj (List.mem_map_of_mem f hx) (by simp [hxq]),
    fun x hx hxq => (List.nodup_cons.mp hnB).1 (hxq ▸ List.mem_map_of_mem f hx)⟩

theorem eraseIdx_eq_filter_of_split [DecidableEq β] {f : α → β} {A B : List α} {q : α}
    (hn : ((A ++ q :: B).map f).Nodup) :
    A ++ B = (A ++ q :: B).filter (fun x => ¬ f x = f q) := by
  rcases split_nodup_fst hn with ⟨hA, hB⟩
  rw [List.filter_append, List.filter_cons, if_neg (by simp)]
  rw [List.filter_eq_self.mpr (fun x hx => by simpa using hA x hx),
    List.filter_eq_self.mpr (fun x hx => by simpa using hB x hx)]

theorem tsDelete_keys (ts : List (String × Nat)) (k : String) :
    (tsDelete ts k).map Prod.fst = (ts.map Prod.fst).filter (fun x => ¬ x = k) := by
  unfold tsDelete
  exact map_filter_fst Prod.fst (fun x => ¬ x = k) ts

theorem tsDelete_perm {ts : List (String × Nat)} {objs : List String} {k : String}
    (hperm : (ts.map Prod.fst).Perm objs) (hn : objs.Nodup) :
    ((tsDelete ts k).map Prod.fst).Perm (objs.erase k) := by
  rw [tsDelete_keys, List.Nodup.erase_eq_filter hn k]
  have h := hperm.filter (fun x => decide (¬ x = k))
  refine h.trans (List.Perm.of_eq (List.filter_congr ?_))
  intro x _
  show decide (¬ x = k) = (x != k)
  by_cases hx : x = k <;> simp [hx]

theorem tsSet_of_not_mem {ts : List (String × Nat)} {k : String} {v : Nat}
    (h : k ∉ ts.map Prod.fst) : tsSet ts k v = ts ++ [(k, v)] := by
  unfold tsSet
  rw [if_neg]
  intro hany
  rcases List.any_eq_true.mp hany with ⟨p, hp, hpk⟩
  exact h (by rcases p with ⟨a, b⟩; simp at hpk; simpa [hpk] using List.mem_map_of_mem Prod.fst hp)

end ListToolkit

/-! ### Eviction preserves the invariant -/

/-- Evicting the pair at index `i` (whose object id is `x`) from all three
structures preserves the engine invariant.  `hsplit` is the decomposition
produced by the `indexOf` lookup of the source. -/
theorem evict_inv {g : GardenData} {A B : List (String × Option String)}
    {q : String × Option String}
    (hInv : Inv g) (hocc : g.occ = A ++ q :: B) :
    Inv { g with occ := (A ++ q :: B).eraseIdx A.length,
                 addingOrder := g.addingOrder.erase q.1,
                 objectTimestamps := tsDelete g.objectTimestamps q.1 } := by
  have hobj : g.objects = (A ++ q :: B).map Prod.fst := by
    rw [GardenData.objects, hocc]
  have hloc : g.locations = (A ++ q :: B).map Prod.snd := by
    rw [GardenData.locations, hocc]
  have herase : (A ++ B).map Prod.fst = g.objects.erase q.1 := by
    rw [hobj]; exact map_erase_of_split (hobj ▸ hInv.obj_nodup)
  have hE : (A ++ q :: B).eraseIdx A.length = A ++ B := eraseIdx_append_length A q B
  constructor
  · show (((A ++ q :: B).eraseIdx A.length).map Prod.fst).length ≤ 22
    rw [hE]
    have h1 : g.objects.length = A.length + (B.length + 1) := by simp [hobj]
    have h2 := hInv.card_le
    simp only [List.length_map, List.length_append]
    omega
  · show (((A ++ q :: B).eraseIdx A.length).map Prod.fst).Nodup
    rw [hE, herase]
    exact List.Nodup.sublist (List.erase_sublist _ _) hInv.obj_nodup
  · show (((A ++ q :: B).eraseIdx A.length).map Prod.snd).Nodup
    rw [hE]
    have hsub : ((A ++ B).map Prod.snd).Sublist ((A ++ q :: B).map Prod.snd) :=
      List.Sublist.map _ ((List.sublist_cons_self q B).append_left A)
    exact List.Nodup.sublist hsub (hloc ▸ hInv.loc_nodup)
  · show (g.addingOrder.erase q.1).Perm (((A ++ q :: B).eraseIdx A.length).map Prod.fst)
    rw [hE, herase]
    exact hInv.order_perm.erase q.1
  · show ((tsDelete g.objectTimestamps q.1).map Prod.fst).Perm
      (((A ++ q :: B).eraseIdx A.length).map Prod.fst)
    rw [hE, herase]
    exact tsDelete_perm hInv.ts_perm hInv.obj_nodup

/-! ### Phase characterizations -/

/-- Case analysis of the duplicate phase: either the object is absent and
nothing happens, or the garden splits around its unique entry. -/
theorem dupPhase_cases (d : ObjectDef) (o : String) (g : GardenData) :
    (dupPhase d o g = ⟨g, none, []⟩ ∧ g.occ.findIdx? (fun p => p.1 = o) = none) ∨
    (∃ A q B, g.occ = A ++ q :: B ∧ q.1 = o ∧ (∀ x ∈ A, ¬ x.1 = o) ∧
      dupPhase d o g =
        ⟨{ g with occ := (A ++ q :: B).eraseIdx A.length,
                  addingOrder := g.addingOrder.erase o,
                  objectTimestamps := tsDelete g.objectTimestamps o },
         some ⟨o, d.name, q.2, "duplicate"⟩,
         [⟨o, q.2, false, some "duplicate"⟩]⟩) := by
  unfold dupPhase
  split
  case h_1 i heq =>
    rcases findIdx?_proj_spec heq with ⟨A, q, B, h1, h2, h3, h4⟩
    refine Or.inr ⟨A, q, B, h1, h3, h4, ?_⟩
    subst h2
    rw [h1, getD_append_length]
  case h_2 heq =>
    exact Or.inl ⟨rfl, heq⟩

/-- Case analysis of the forced-eviction body. -/
theorem forcedEvict_cases (env : Env) (fl : Option String) (ph : Phase) :
    (forcedEvict env fl ph = ph ∧ fl ∉ ph.g.locations) ∨
    (∃ A q B, ph.g.occ = A ++ q :: B ∧ q.2 = fl ∧ (∀ x ∈ A, ¬ x.2 = fl) ∧
      forcedEvict env fl ph =
        ⟨{ ph.g with
             occ := (A ++ q :: B).eraseIdx A.length,
             addingOrder := ph.g.addingOrder.erase q.1,
             objectTimestamps := tsDelete ph.g.objectTimestamps q.1 },
         (match ph.removed with
          | none => some ⟨q.1, ((env.ObjectLocationData q.1).map ObjectDef.name).getD "",
              fl, "forced_displacement"⟩
          | some r =>
              if ¬ r.id = q.1 then
                some ⟨q.1, ((env.ObjectLocationData q.1).map ObjectDef.name).getD "",
                  fl, "forced_displacement"⟩
              else some r),
         ph.events ++ [⟨q.1, fl, false, some "forced_displacement"⟩]⟩) := by
  unfold forcedEvict
  split
  case h_1 i heq =>
    rcases findIdx?_proj_spec heq with ⟨A, q, B, h1, h2, h3, h4⟩
    refine Or.inr ⟨A, q, B, h1, h3, h4, ?_⟩
    subst h2
    rw [h1, getD_append_length]
  case h_2 heq =>
    refine Or.inl ⟨rfl, ?_⟩
    have := findIdx?_proj_none heq
    simpa [GardenData.locations] using this

/-- Case analysis of the oldest-eviction body. -/
theorem evictOldest_cases (ph : Phase) :
    evictOldest ph = ph ∨
    (∃ oldest rest A q B, ph.g.addingOrder = oldest :: rest ∧
      ph.g.occ = A ++ q :: B ∧ q.1 = oldest ∧ (∀ x ∈ A, ¬ x.1 = oldest) ∧
      evictOldest ph =
        ⟨{ ph.g with
             occ := (A ++ q :: B).eraseIdx A.length,
             addingOrder := ph.g.addingOrder.tail,
             objectTimestamps := tsDelete ph.g.objectTimestamps oldest },
         some ⟨oldest, "", q.2, "oldest"⟩,
         ph.events ++ [⟨oldest, q.2, false, some "oldest"⟩]⟩) := by
  unfold evictOldest
  split
  case h_1 heq => exact Or.inl rfl
  case h_2 oldest heq =>
    split
    case h_1 heq2 => exact Or.inl rfl
    case h_2 i heq2 =>
      rcases findIdx?_proj_spec heq2 with ⟨A, q, B, h1, h2, h3, h4⟩
      refine Or.inr ⟨oldest, ph.g.addingOrder.tail, A, q, B, ?_, h1, h3, h4, ?_⟩
      · cases hA : ph.g.addingOrder with
        | nil => rw [hA] at heq; simp at heq
        | cons a t => rw [hA] at heq; simp at heq; simp [hA, heq]
      · subst h2
        rw [h1, getD_append_length]

/-! ### Per-phase invariant lemmas -/

theorem get?_mod_mem (l : List α) (hl : l ≠ []) (r : Nat) :
    ∃ a, l.get? (r % l.length) = some a ∧ a ∈ l := by
  have hlen : 0 < l.length := List.length_pos.mpr hl
  have hlt : r % l.length < l.length := Nat.mod_lt _ hlen
  refine ⟨l.get ⟨r % l.length, hlt⟩, ?_, List.get_mem l _ hlt⟩
  rw [List.get?_eq_getElem?, List.getElem?_eq_getElem hlt]
  rfl

theorem not_mem_objects_of_sublist {g g' : GardenData} (h : g'.occ.Sublist g.occ)
    {x : String} (hx : x ∉ g.objects) : x ∉ g'.objects := by
  intro hx'
  exact hx ((List.Sublist.map Prod.fst h).subset hx')

theorem not_mem_locations_of_sublist {g g' : GardenData} (h : g'.occ.Sublist g.occ)
    {x : Option String} (hx : x ∉ g.locations) : x ∉ g'.locations := by
  intro hx'
  exact hx ((List.Sublist.map Prod.snd h).subset hx')

theorem not_mem_snd_of_split {A B : List (String × Option String)}
    {q : String × Option String}
    (hn : ((A ++ q :: B).map Prod.snd).Nodup) : q.2 ∉ (A ++ B).map Prod.snd := by
  rcases split_nodup_fst hn with ⟨hA, hB⟩
  intro hmem
  rcases List.mem_map.mp hmem with ⟨x, hx, hfx⟩
  rcases List.mem_append.mp hx with hx | hx
  · exact hA x hx hfx
  · exact hB x hx hfx

theorem dupPhase_inv {g : GardenData} (d : ObjectDef) (o : String) (hInv : Inv g) :
    Inv (dupPhase d o g).g := by
  rcases dupPhase_cases d o g with ⟨he, _⟩ | ⟨A, q, B, h1, h3, _, he⟩
  · rw [he]; exact hInv
  · rw [he]; exact h3 ▸ evict_inv hInv h1

theorem dupPhase_sublist (d : ObjectDef) (o : String) (g : GardenData) :
    (dupPhase d o g).g.occ.Sublist g.occ := by
  rcases dupPhase_cases d o g with ⟨he, _⟩ | ⟨A, q, B, h1, _, _, he⟩
  · rw [he]
  · rw [he]
    show ((A ++ q :: B).eraseIdx A.length).Sublist g.occ
    rw [eraseIdx_append_length, h1]
    exact (List.sublist_cons_self q B).append_left A

theorem dupPhase_not_mem {g : GardenData} (d : ObjectDef) (o : String) (hInv : Inv g) :
    o ∉ (dupPhase d o g).g.objects := by
  rcases dupPhase_cases d o g with ⟨he, hn⟩ | ⟨A, q, B, h1, h3, _, he⟩
  · rw [he]
    simpa [GardenData.objects] using findIdx?_proj_none hn
  · rw [he]
    show o ∉ ((A ++ q :: B).eraseIdx A.length).map Prod.fst
    rw [eraseIdx_append_length]
    have hn : ((A ++ q :: B).map Prod.fst).Nodup := by
      have := hInv.obj_nodup
      rwa [GardenData.objects, h1] at this
    rw [map_erase_of_split hn, h3]
    intro hmem
    exact ((List.Nodup.mem_erase_iff hn).mp hmem).1 rfl

theorem dupPhase_removed_none {g : GardenData} {d : ObjectDef} {o : String}
    (h : (dupPhase d o g).removed = none) : dupPhase d o g = ⟨g, none, []⟩ := by
  rcases dupPhase_cases d o g with ⟨he, _⟩ | ⟨A, q, B, _, _, _, he⟩
  · exact he
  · rw [he] at h; simp at h

theorem dupPhase_len_some {g : GardenData} {d : ObjectDef} {o : String}
    (h : (dupPhase d o g).removed.isSome) :
    (dupPhase d o g).g.occ.length + 1 = g.occ.length := by
  rcases dupPhase_cases d o g with ⟨he, _⟩ | ⟨A, q, B, h1, _, _, he⟩
  · rw [he] at h; simp at h
  · rw [he]
    show ((A ++ q :: B).eraseIdx A.length).length + 1 = g.occ.length
    rw [eraseIdx_append_length, h1]
    simp
    omega

theorem forcedEvict_inv {ph : Phase} (env : Env) (fl : Option String)
    (hInv : Inv ph.g) : Inv (forcedEvict env fl ph).g := by
  rcases forcedEvict_cases env fl ph with ⟨he, _⟩ | ⟨A, q, B, h1, _, _, he⟩
  · rw [he]; exact hInv
  · rw [he]; exact evict_inv hInv h1

theorem forcedEvict_sublist (env : Env) (fl : Option String) (ph : Phase) :
    (forcedEvict env fl ph).g.occ.Sublist ph.g.occ := by
  rcases forcedEvict_cases env fl ph with ⟨he, _⟩ | ⟨A, q, B, h1, _, _, he⟩
  · rw [he]
  · rw [he]
    show ((A ++ q :: B).eraseIdx A.length).Sublist ph.g.occ
    rw [eraseIdx_append_length, h1]
    exact (List.sublist_cons_self q B).append_left A

theorem forcedEvict_removed_none {env : Env} {fl : Option String} {ph : Phase}
    (h : (forcedEvict env fl ph).removed = none) : forcedEvict env fl ph = ph := by
  rcases forcedEvict_cases env fl ph with ⟨he, _⟩ | ⟨A, q, B, _, _, _, he⟩
  · exact he
  · rw [he] at h
    simp only at h
    cases hr : ph.removed with
    | none => rw [hr] at h; simp at h
    | some r =>
        rw [hr] at h
        by_cases hid : ¬ r.id = q.1 <;> simp [hid] at h

theorem forcedEvict_len_some {env : Env} {fl : Option String} {ph : Phase}
    (h : (forcedEvict env fl ph).removed.isSome) :
    (forcedEvict env fl ph).g.occ.length + 1 = ph.g.occ.length ∨
    (forcedEvict env fl ph = ph ∧ ph.removed.isSome) := by
  rcases forcedEvict_cases env fl ph with ⟨he, _⟩ | ⟨A, q, B, h1, _, _, he⟩
  · right; exact ⟨he, by rwa [he] at h⟩
  · left
    rw [he]
    show ((A ++ q :: B).eraseIdx A.length).length + 1 = ph.g.occ.length
    rw [eraseIdx_append_length, h1]
    simp
    omega

theorem evictOldest_inv {ph : Phase} (hInv : Inv ph.g) : Inv (evictOldest ph).g := by
  rcases evictOldest_cases ph with he | ⟨oldest, rest, A, q, B, hao, h1, h3, _, he⟩
  · rw [he]; exact hInv
  · rw [he]
    have htail : ph.g.addingOrder.tail = ph.g.addingOrder.erase q.1 := by
      rw [hao, h3]
      simp [List.erase_cons_head]
    show Inv { ph.g with
                occ := (A ++ q :: B).eraseIdx A.length,
                addingOrder := ph.g.addingOrder.tail,
                objectTimestamps := tsDelete ph.g.objectTimestamps oldest }
    rw [htail, ← h3]
    exact evict_inv hInv h1

theorem evictOldest_sublist (ph : Phase) : (evictOldest ph).g.occ.Sublist ph.g.occ := by
  rcases evictOldest_cases ph with he | ⟨oldest, rest, A, q, B, _, h1, _, _, he⟩
  · rw [he]
  · rw [he]
    show ((A ++ q :: B).eraseIdx A.length).Sublist ph.g.occ
    rw [eraseIdx_append_length, h1]
    exact (List.sublist_cons_self q B).append_left A

theorem evictOldest_fires {ph : Phase} (hInv : Inv ph.g) (hlen : 0 < ph.g.occ.length) :
    (evictOldest ph).g.occ.length + 1 = ph.g.occ.length := by
  unfold evictOldest
  cases hA : ph.g.addingOrder with
  | nil =>
      exfalso
      have hp := hInv.order_perm.length_eq
      rw [hA] at hp
      simp only [List.length_nil, GardenData.objects, List.length_map] at hp
      omega
  | cons oldest rest =>
      have hmem : oldest ∈ ph.g.objects :=
        hInv.order_perm.mem_iff.mp (by simp [hA])
      cases hF : ph.g.occ.findIdx? (fun p => p.1 = oldest) with
      | none =>
          exact absurd hmem (by simpa [GardenData.objects] using findIdx?_proj_none hF)
      | some i =>
          rcases findIdx?_proj_spec hF with ⟨A, q, B, h1, h2, h3, h4⟩
          simp only [List.head?_cons, hF]
          subst h2
          show ((ph.g.occ).eraseIdx A.length).length + 1 = ph.g.occ.length
          rw [h1, eraseIdx_append_length]
          simp
          omega

theorem capacityPhase_inv {ph : Phase} (hInv : Inv ph.g) : Inv (capacityPhase ph).g := by
  unfold capacityPhase
  split
  · exact evictOldest_inv hInv
  · exact hInv

theorem capacityPhaseBatch_inv {ph : Phase} (hInv : Inv ph.g) :
    Inv (capacityPhaseBatch ph).g := by
  unfold capacityPhaseBatch
  split
  · exact evictOldest_inv hInv
  · exact hInv

theorem capacityPhase_sublist (ph : Phase) :
    (capacityPhase ph).g.occ.Sublist ph.g.occ := by
  unfold capacityPhase
  split
  · exact evictOldest_sublist ph
  · exact List.Sublist.refl _

theorem capacityPhaseBatch_sublist (ph : Phase) :
    (capacityPhaseBatch ph).g.occ.Sublist ph.g.occ := by
  unfold capacityPhaseBatch
  split
  · exact evictOldest_sublist ph
  · exact List.Sublist.refl _

theorem capacityPhase_len {ph : Phase} (hInv : Inv ph.g)
    (hr : ph.removed.isSome → ph.g.occ.length ≤ 21) :
    (capacityPhase ph).g.occ.length ≤ 21 := by
  unfold capacityPhase
  split
  case isTrue h =>
    have hlen : 0 < ph.g.occ.length := by
      have := h.1
      simp only [GardenData.objects, List.length_map] at this
      omega
    have hfire := evictOldest_fires hInv hlen
    have hcard := hInv.card_le
    simp only [GardenData.objects, List.length_map] at hcard
    omega
  case isFalse h =>
    rw [not_and_or] at h
    rcases h with h | h
    · have : ph.g.occ.length < 22 := by
        simp only [GardenData.objects, List.length_map, not_le] at h
        exact h
      omega
    · have : ph.removed.isSome := by
        cases hrm : ph.removed with
        | none => exact absurd hrm h
        | some r => simp
      exact hr this

theorem capacityPhaseBatch_len {ph : Phase} (hInv : Inv ph.g)
    (_hr : ph.removed.isSome → ph.g.occ.length ≤ 21) :
    (capacityPhaseBatch ph).g.occ.length ≤ 21 := by
  unfold capacityPhaseBatch
  split
  case isTrue h =>
    have hlen : 0 < ph.g.occ.length := by
      simp only [GardenData.objects, List.length_map] at h
      omega
    have hfire := evictOldest_fires hInv hlen
    have hcard := hInv.card_le
    simp only [GardenData.objects, List.length_map] at hcard
    omega
  case isFalse h =>
    have : ph.g.occ.length < 22 := by
      simp only [GardenData.objects, List.length_map, not_le] at h
      exact h
    omega

theorem placePhase_inv {ph : Phase} {o : String} {sel : Option String} (now : Nat)
    (hInv : Inv ph.g) (ho : o ∉ ph.g.objects) (hsel : sel ∉ ph.g.locations)
    (hlen : ph.g.occ.length ≤ 21) : Inv (placePhase now o sel ph).g := by
  have horder : o ∉ ph.g.addingOrder := fun hmem =>
    ho (hInv.order_perm.mem_iff.mp hmem)
  have hts : o ∉ ph.g.objectTimestamps.map Prod.fst := fun hmem =>
    ho (hInv.ts_perm.mem_iff.mp hmem)
  constructor
  · show ((ph.g.occ ++ [(o, sel)]).map Prod.fst).length ≤ 22
    simp only [List.length_map, List.length_append, List.length_cons, List.length_nil]
    omega
  · show ((ph.g.occ ++ [(o, sel)]).map Prod.fst).Nodup
    rw [List.map_append]
    rw [List.nodup_append]
    refine ⟨hInv.obj_nodup, by simp, ?_⟩
    intro a ha hb
    simp only [List.map_cons, List.map_nil, List.mem_singleton] at hb
    exact ho (hb ▸ ha)
  · show ((ph.g.occ ++ [(o, sel)]).map Prod.snd).Nodup
    rw [List.map_append, List.nodup_append]
    refine ⟨hInv.loc_nodup, by simp, ?_⟩
    intro a ha hb
    simp only [List.map_cons, List.map_nil, List.mem_singleton] at hb
    exact hsel (hb ▸ ha)
  · show (ph.g.addingOrder ++ [o]).Perm ((ph.g.occ ++ [(o, sel)]).map Prod.fst)
    rw [List.map_append]
    exact hInv.order_perm.append (List.Perm.refl _)
  · show ((tsSet ph.g.objectTimestamps o now).map Prod.fst).Perm
      ((ph.g.occ ++ [(o, sel)]).map Prod.fst)
    rw [tsSet_of_not_mem hts, List.map_append, List.map_append]
    exact hInv.ts_perm.append (List.Perm.refl _)

theorem card_occ_le {g : GardenData} (hInv : Inv g) : g.occ.length ≤ 22 := by
  have := hInv.card_le
  simpa [GardenData.objects] using this

theorem selectLocation_mem_APL {r2 : Nat} {APL : List String}
    (avail : List (Option String)) (h : 0 < APL.length) :
    ∃ l, selectLocation r2 APL avail = some l ∧ l ∈ APL := by
  unfold selectLocation
  rw [if_pos h]
  rcases get?_mod_mem APL (List.length_pos.mp h) r2 with ⟨a, ha, hmem⟩
  exact ⟨a, ha, hmem⟩

theorem selectLocation_mem_avail {r2 : Nat} {APL : List String}
    {avail : List (Option String)} (h : ¬ 0 < APL.length) (hav : avail ≠ []) :
    selectLocation r2 APL avail ∈ avail := by
  unfold selectLocation
  rw [if_neg h]
  rcases get?_mod_mem avail hav r2 with ⟨a, ha, hmem⟩
  rw [ha]
  simpa using hmem

/-- The add pipeline preserves the invariant, for either capacity policy. -/
theorem addPipeline_inv (cap : Phase → Phase)
    (hcap_inv : ∀ ph, Inv ph.g → Inv (cap ph).g)
    (hcap_sub : ∀ ph, (cap ph).g.occ.Sublist ph.g.occ)
    (hcap_len : ∀ ph, Inv ph.g → (ph.removed.isSome → ph.g.occ.length ≤ 21) →
      (cap ph).g.occ.length ≤ 21)
    (env : Env) (now r1 r2 : Nat) (o : String) (d : ObjectDef) {g0 : GardenData}
    (hInv : Inv g0) :
    Inv (addPipeline cap env now r1 r2 o d g0).g := by
  unfold addPipeline
  dsimp only
  set ph1 := dupPhase d o g0 with hph1
  set pf := getPrioritizedLocations env o d.location with hpf
  set APL := pf.1.filter (fun l => ¬ some l ∈ ph1.g.locations) with hAPL
  set AFL := pf.2.filter (fun l => ¬ some l ∈ ph1.g.locations) with hAFL
  set A0 : List (Option String) := (APL ++ AFL).map some with hA0
  set ALL := pf.1 ++ pf.2 with hALL
  have hInv1 : Inv ph1.g := dupPhase_inv d o hInv
  have ho1 : o ∉ ph1.g.objects := dupPhase_not_mem d o hInv
  have hlen1 : ph1.removed.isSome → ph1.g.occ.length ≤ 21 := by
    intro hs
    have h := dupPhase_len_some (g := g0) (d := d) (o := o) hs
    rw [← hph1] at h
    have hc := card_occ_le hInv
    omega
  have hfreeAPL : ∀ l ∈ APL, some l ∉ ph1.g.locations := by
    intro l hl
    have := (List.mem_filter.mp hl).2
    simpa using this
  have hfreeAFL : ∀ l ∈ AFL, some l ∉ ph1.g.locations := by
    intro l hl
    have := (List.mem_filter.mp hl).2
    simpa using this
  by_cases h0 : A0.length = 0
  · rw [if_pos h0]
    have hA0nil : A0 = [] := List.length_eq_zero.mp h0
    have hAPLnil : APL = [] := by
      have : APL ++ AFL = [] := by
        have := congrArg List.length (hA0 ▸ hA0nil)
        simp at this
        exact List.length_eq_zero.mp (by simp [this])
      exact List.append_eq_nil.mp this |>.1
    simp only [forcedPhase]
    set fl := forcedLocationOf r1 pf.1 ALL ph1.g with hfl
    set ph2 := forcedEvict env fl ph1 with hph2
    have hInv2 : Inv ph2.g := forcedEvict_inv env fl hInv1
    have hsub2 : ph2.g.occ.Sublist ph1.g.occ := forcedEvict_sublist env fl ph1
    have hlen2 : ph2.removed.isSome → ph2.g.occ.length ≤ 21 := by
      intro hs
      rcases forcedEvict_len_some hs with hlen | ⟨heq, hrm1⟩
      · rw [← hph2] at hlen
        have := card_occ_le hInv1
        omega
      · rw [hph2, heq]
        exact hlen1 hrm1
    have hInv3 : Inv (cap ph2).g := hcap_inv ph2 hInv2
    have hlen3 : (cap ph2).g.occ.length ≤ 21 := hcap_len ph2 hInv2 hlen2
    have ho3 : o ∉ (cap ph2).g.objects :=
      not_mem_objects_of_sublist (hcap_sub ph2)
        (not_mem_objects_of_sublist hsub2 ho1)
    have hflnm : fl ∉ ph2.g.locations := by
      rcases forcedEvict_cases env fl ph1 with ⟨heq, hnm⟩ | ⟨A, q, B, h1, h2, h3, heq⟩
      · rw [hph2, heq]; exact hnm
      · rw [hph2, heq]
        show fl ∉ ((A ++ q :: B).eraseIdx A.length).map Prod.snd
        rw [eraseIdx_append_length, ← h2]
        exact not_mem_snd_of_split (by
          have := hInv1.loc_nodup
          rwa [GardenData.locations, h1] at this)
    have hsel : selectLocation r2 APL (A0 ++ [fl]) = fl := by
      have hmem := @selectLocation_mem_avail r2 APL (A0 ++ [fl])
        (by rw [hAPLnil]; simp) (by simp)
      rcases List.mem_append.mp hmem with h | h
      · rw [hA0nil] at h; simp at h
      · simpa using h
    rw [hsel]
    exact placePhase_inv now hInv3 ho3
      (not_mem_locations_of_sublist (hcap_sub ph2) hflnm) hlen3
  · rw [if_neg h0]
    have hInv3 : Inv (cap ph1).g := hcap_inv ph1 hInv1
    have hlen3 : (cap ph1).g.occ.length ≤ 21 := hcap_len ph1 hInv1 hlen1
    have ho3 : o ∉ (cap ph1).g.objects :=
      not_mem_objects_of_sublist (hcap_sub ph1) ho1
    have hselfree : selectLocation r2 APL A0 ∉ ph1.g.locations := by
      by_cases hAPL0 : 0 < APL.length
      · rcases selectLocation_mem_APL A0 hAPL0 with ⟨l, hl, hmem⟩
        rw [hl]
        exact hfreeAPL l hmem
      · have hmem := @selectLocation_mem_avail r2 APL A0
          hAPL0 (by intro hnil; exact h0 (by rw [hnil]; rfl))
        rw [hA0] at hmem
        rcases List.mem_map.mp hmem with ⟨l, hl, hfx⟩
        rw [← hfx]
        rcases List.mem_append.mp hl with hl | hl
        · exact hfreeAPL l hl
        · exact hfreeAFL l hl
    exact placePhase_inv now hInv3 ho3
      (not_mem_locations_of_sublist (hcap_sub ph1) hselfree) hlen3

theorem updateStateMetadata_inv {g : GardenData} {now : Nat} (h : Inv g) :
    Inv (updateStateMetadata now g) :=
  ⟨h.card_le, h.obj_nodup, h.loc_nodup, h.order_perm, h.ts_perm⟩

/-- Full characterization of the cleanup loop of `removeOldestHalf` on a
well-formed garden whose removal list is a subset of the occupants. -/
theorem removeLoop_spec : ∀ (ids : List String) (g : GardenData),
    g.objects.Nodup → (∀ x ∈ ids, x ∈ g.objects) → ids.Nodup →
    (removeLoop ids g).1 = { g with
        occ := g.occ.filter (fun p => ¬ p.1 ∈ ids),
        objectTimestamps := g.objectTimestamps.filter (fun p => ¬ p.1 ∈ ids) } ∧
    (removeLoop ids g).2.map Event.objectId = ids ∧
    ∀ e ∈ (removeLoop ids g).2, e.isAdd = false := by
  intro ids
  induction ids with
  | nil =>
      intro g hnd hsub hidnd
      refine ⟨?_, by simp [removeLoop], by simp [removeLoop]⟩
      show g = _
      have h1 : g.occ.filter (fun p => ¬ p.1 ∈ ([] : List String)) = g.occ := by
        rw [List.filter_eq_self]
        intro a _
        simp
      have h2 : g.objectTimestamps.filter
          (fun p => ¬ p.1 ∈ ([] : List String)) = g.objectTimestamps := by
        rw [List.filter_eq_self]
        intro a _
        simp
      rw [h1, h2]
  | cons x rest ih =>
      intro g hnd hsub hidnd
      have hxmem : x ∈ g.objects := hsub x (by simp)
      unfold removeLoop
      cases hF : g.occ.findIdx? (fun p => p.1 = x) with
      | none =>
          exact absurd hxmem (by simpa [GardenData.objects] using findIdx?_proj_none hF)
      | some i =>
          rcases findIdx?_proj_spec hF with ⟨A, q, B, h1, h2, h3, h4⟩
          have hnd' : ((A ++ q :: B).map Prod.fst).Nodup := by
            have := hnd
            rwa [GardenData.objects, h1] at this
          subst h2
          have hocc' : g.occ.eraseIdx A.length = g.occ.filter (fun p => ¬ p.1 = x) := by
            rw [h1, eraseIdx_append_length]
            have := eraseIdx_eq_filter_of_split hnd'
            rw [h3] at this
            exact this
          set g' : GardenData := { g with
            occ := g.occ.eraseIdx A.length,
            objectTimestamps := tsDelete g.objectTimestamps x } with hg'
          have hobj' : g'.objects = g.objects.filter (fun a => ¬ a = x) := by
            show (g.occ.eraseIdx A.length).map Prod.fst = _
            rw [hocc']
            exact map_filter_fst Prod.fst (fun a => ¬ a = x) g.occ
          have hnd2 : g'.objects.Nodup := by
            rw [hobj']
            exact List.Nodup.sublist (List.filter_sublist _) hnd
          have hsub2 : ∀ y ∈ rest, y ∈ g'.objects := by
            intro y hy
            rw [hobj', List.mem_filter]
            refine ⟨hsub y (by simp [hy]), ?_⟩
            have hyx : ¬ y = x := by
              intro hyx
              exact (List.nodup_cons.mp hidnd).1 (hyx ▸ hy)
            simpa using hyx
          rcases ih g' hnd2 hsub2 (List.nodup_cons.mp hidnd).2 with ⟨hstate, hmap, hflag⟩
          refine ⟨?_, ?_, ?_⟩
          · rw [hstate]
            have hfo : (g'.occ.filter (fun p => ¬ p.1 ∈ rest)) =
                g.occ.filter (fun p => ¬ p.1 ∈ x :: rest) := by
              show ((g.occ.eraseIdx A.length).filter (fun p => ¬ p.1 ∈ rest)) = _
              rw [hocc', List.filter_filter]
              refine List.filter_congr ?_
              intro p _
              by_cases hpx : p.1 = x <;> by_cases hpr : p.1 ∈ rest <;>
                simp [hpx, hpr]
            have hft : (g'.objectTimestamps.filter (fun p => ¬ p.1 ∈ rest)) =
                g.objectTimestamps.filter (fun p => ¬ p.1 ∈ x :: rest) := by
              show ((tsDelete g.objectTimestamps x).filter (fun p => ¬ p.1 ∈ rest)) = _
              rw [tsDelete, List.filter_filter]
              refine List.filter_congr ?_
              intro p _
              by_cases hpx : p.1 = x <;> by_cases hpr : p.1 ∈ rest <;>
                simp [hpx, hpr]
            rw [hfo, hft]
          · simpa using hmap
          · intro e he
            rcases List.mem_cons.mp he with rfl | he
            · rfl
            · exact hflag e he

theorem filter_not_mem_take [DecidableEq α] {l : List α} (hnd : l.Nodup) (n : Nat) :
    l.filter (fun a => ¬ a ∈ l.take n) = l.drop n := by
  set T := l.take n with hT
  set D := l.drop n with hD
  have hsplit : l = T ++ D := (List.take_append_drop n l).symm
  have hnd' : (T ++ D).Nodup := hsplit ▸ hnd
  rcases List.nodup_append.mp hnd' with ⟨_, _, hdisj⟩
  have h1 : T.filter (fun a => ¬ a ∈ T) = [] := by
    rw [List.filter_eq_nil_iff]
    intro a ha
    simp [ha]
  have h2 : D.filter (fun a => ¬ a ∈ T) = D := by
    rw [List.filter_eq_self]
    intro a ha
    have : a ∉ T := fun hmem => hdisj hmem ha
    simpa using this
  calc l.filter (fun a => ¬ a ∈ T)
      = (T ++ D).filter (fun a => ¬ a ∈ T) := by rw [← hsplit]
    _ = D := by rw [List.filter_append, h1, h2, List.nil_append]

/-- The objects the cleanup loop leaves in place. -/
theorem objects_filter_perm {g : GardenData} (hInv : Inv g) (ids : List String) :
    ((g.occ.filter (fun p => ¬ p.1 ∈ ids)).map Prod.fst).Perm
      (g.addingOrder.filter (fun a => ¬ a ∈ ids)) := by
  rw [map_filter_fst Prod.fst (fun a => ¬ a ∈ ids) g.occ]
  exact (hInv.order_perm.filter _).symm

/-- The firing branch of `removeOldestHalf` as a plain equation. -/
theorem removeOldestHalf_fire_eq {g : GardenData} (now : Nat)
    (hz : ¬ g.objects.length = 0) (hn0 : ¬ g.objects.length / 2 = 0) :
    removeOldestHalf now g =
      ({ (removeLoop (g.addingOrder.take (g.objects.length / 2)) g).1 with
          addingOrder := g.addingOrder.drop (g.objects.length / 2),
          stateVersion :=
            (removeLoop (g.addingOrder.take (g.objects.length / 2)) g).1.stateVersion + 1,
          lastModified := now },
       some ⟨(removeLoop (g.addingOrder.take (g.objects.length / 2)) g).2.length,
             (removeLoop (g.addingOrder.take (g.objects.length / 2)) g).2,
             { (removeLoop (g.addingOrder.take (g.objects.length / 2)) g).1 with
                addingOrder := g.addingOrder.drop (g.objects.length / 2),
                stateVersion :=
                  (removeLoop (g.addingOrder.take (g.objects.length / 2)) g).1.stateVersion + 1,
                lastModified := now }⟩) := by
  unfold removeOldestHalf
  rw [if_neg hz, if_neg hn0]

/-- `removeOldestHalf` characterized on a well-formed garden. -/
theorem removeOldestHalf_spec {g : GardenData} (now : Nat) (hInv : Inv g) :
    (g.objects.length / 2 = 0 → removeOldestHalf now g = (g, none)) ∧
    (1 ≤ g.objects.length / 2 →
      (removeOldestHalf now g).1 = { g with
          occ := g.occ.filter
            (fun p => ¬ p.1 ∈ g.addingOrder.take (g.objects.length / 2)),
          addingOrder := g.addingOrder.drop (g.objects.length / 2),
          objectTimestamps := g.objectTimestamps.filter
            (fun p => ¬ p.1 ∈ g.addingOrder.take (g.objects.length / 2)),
          stateVersion := g.stateVersion + 1,
          lastModified := now } ∧
      ∃ out, (removeOldestHalf now g).2 = some out ∧
        out.events.map Event.objectId = g.addingOrder.take (g.objects.length / 2) ∧
        (∀ e ∈ out.events, e.isAdd = false) ∧
        out.removedCount = g.objects.length / 2 ∧
        out.snapshot = (removeOldestHalf now g).1) := by
  have horder_nd : g.addingOrder.Nodup :=
    (hInv.order_perm.nodup_iff).mpr hInv.obj_nodup
  constructor
  · intro h0
    unfold removeOldestHalf
    by_cases hz : g.objects.length = 0
    · rw [if_pos hz]
    · rw [if_neg hz, if_pos h0]
  · intro h1
    have hz : ¬ g.objects.length = 0 := by omega
    have hn0 : ¬ g.objects.length / 2 = 0 := by omega
    have htake_sub : ∀ x ∈ g.addingOrder.take (g.objects.length / 2), x ∈ g.objects := by
      intro x hx
      exact hInv.order_perm.mem_iff.mp ((List.take_sublist _ _).subset hx)
    have htake_nd : (g.addingOrder.take (g.objects.length / 2)).Nodup :=
      List.Nodup.sublist (List.take_sublist _ _) horder_nd
    rcases removeLoop_spec (g.addingOrder.take (g.objects.length / 2)) g
      hInv.obj_nodup htake_sub htake_nd with ⟨hstate, hmap, hflag⟩
    have htklen : (g.addingOrder.take (g.objects.length / 2)).length =
        g.objects.length / 2 := by
      rw [List.length_take]
      have hle := hInv.order_perm.length_eq
      simp only [GardenData.objects, List.length_map] at hle ⊢
      omega
    have heq := removeOldestHalf_fire_eq now hz hn0
    have hfst : (removeOldestHalf now g).1 = { g with
        occ := g.occ.filter
          (fun p => ¬ p.1 ∈ g.addingOrder.take (g.objects.length / 2)),
        addingOrder := g.addingOrder.drop (g.objects.length / 2),
        objectTimestamps := g.objectTimestamps.filter
          (fun p => ¬ p.1 ∈ g.addingOrder.take (g.objects.length / 2)),
        stateVersion := g.stateVersion + 1,
        lastModified := now } := by
      rw [heq]
      simp only [hstate]
    refine ⟨hfst, ⟨(removeLoop (g.addingOrder.take (g.objects.length / 2)) g).2.length,
      (removeLoop (g.addingOrder.take (g.objects.length / 2)) g).2,
      (removeOldestHalf now g).1⟩, ?_, hmap, hflag, ?_, rfl⟩
    · rw [heq]
    · have hcnt := congrArg List.length hmap
      simpa [htklen] using hcnt

/-! ### Operation-level invariant preservation -/

theorem addObject_inv {env : Env} {now r1 r2 : Nat} {objectId : String}
    {g0 : GardenData} (hInv : Inv g0) : Inv (addObject env now r1 r2 objectId g0).g := by
  unfold addObject
  split
  · exact hInv
  · exact updateStateMetadata_inv (addPipeline_inv capacityPhase
      (fun ph h => capacityPhase_inv h) (fun ph => capacityPhase_sublist ph)
      (fun ph h hr => capacityPhase_len h hr) env now r1 r2 objectId _ hInv)

theorem addBatchItem_inv {env : Env} {now r1 r2 : Nat} {objectId : String}
    {g0 : GardenData} (hInv : Inv g0) : Inv (addBatchItem env now r1 r2 objectId g0).1 := by
  unfold addBatchItem
  split
  · exact hInv
  · exact addPipeline_inv capacityPhaseBatch
      (fun ph h => capacityPhaseBatch_inv h) (fun ph => capacityPhaseBatch_sublist ph)
      (fun ph h hr => capacityPhaseBatch_len h hr) env now r1 r2 objectId _ hInv

theorem removeObject_inv {env : Env} {now : Nat} {objectId : String}
    {g0 : GardenData} (hInv : Inv g0) : Inv (removeObject env now objectId g0).g := by
  unfold removeObject
  split
  · exact hInv
  case h_2 i heq =>
    rcases findIdx?_proj_spec heq with ⟨A, q, B, h1, h2, h3, h4⟩
    subst h2
    refine updateStateMetadata_inv ?_
    have h := evict_inv hInv h1
    rw [h3] at h
    rw [h1]
    exact h

theorem emptyGarden_inv (g : GardenData) :
    Inv { g with occ := [], addingOrder := [], objectTimestamps := [] } := by
  constructor <;> simp [GardenData.objects, GardenData.locations]

theorem clearGarden_inv (now : Nat) (g : GardenData) : Inv (clearGarden now g).1 :=
  updateStateMetadata_inv (emptyGarden_inv g)

theorem addBatchLoop_inv {env : Env} {now : Nat} :
    ∀ (ids : List String) (rs : List (Nat × Nat)) {g : GardenData}, Inv g →
      Inv (addBatchLoop env now ids rs g).1 := by
  intro ids
  induction ids with
  | nil => intro rs g hInv; exact hInv
  | cons objectId rest ih =>
      intro rs g hInv
      exact ih rs.tail (addBatchItem_inv hInv)

theorem addObjectsBatch_inv {env : Env} {now : Nat} {ids : List String}
    {clearFirst : Bool} {rs : List (Nat × Nat)} {g0 : GardenData} (hInv : Inv g0) :
    Inv (addObjectsBatch env now ids clearFirst rs g0).g := by
  unfold addObjectsBatch
  refine updateStateMetadata_inv (addBatchLoop_inv ids rs ?_)
  unfold clearPhase
  split
  · exact emptyGarden_inv g0
  · exact hInv

theorem removeOldestHalf_inv {now : Nat} {g : GardenData} (hInv : Inv g) :
    Inv (removeOldestHalf now g).1 := by
  rcases removeOldestHalf_spec now hInv with ⟨hnoop, hfire⟩
  by_cases h0 : g.objects.length / 2 = 0
  · rw [hnoop h0]
    exact hInv
  · rcases hfire (by omega) with ⟨hfst, _⟩
    rw [hfst]
    set T := g.addingOrder.take (g.objects.length / 2) with hT
    have horder_nd : g.addingOrder.Nodup :=
      (hInv.order_perm.nodup_iff).mpr hInv.obj_nodup
    constructor
    · show ((g.occ.filter (fun p => ¬ p.1 ∈ T)).map Prod.fst).length ≤ 22
      have hsub := (List.filter_sublist (l := g.occ)
        (p := fun p => ¬ p.1 ∈ T)).length_le
      have hc := card_occ_le hInv
      simp only [List.length_map]
      omega
    · show ((g.occ.filter (fun p => ¬ p.1 ∈ T)).map Prod.fst).Nodup
      exact List.Nodup.sublist
        (List.Sublist.map _ (List.filter_sublist _)) hInv.obj_nodup
    · show ((g.occ.filter (fun p => ¬ p.1 ∈ T)).map Prod.snd).Nodup
      exact List.Nodup.sublist
        (List.Sublist.map _ (List.filter_sublist _)) hInv.loc_nodup
    · show (g.addingOrder.drop (g.objects.length / 2)).Perm
        ((g.occ.filter (fun p => ¬ p.1 ∈ T)).map Prod.fst)
      have hperm := objects_filter_perm hInv T
      have hdrop : g.addingOrder.filter (fun a => ¬ a ∈ T) =
          g.addingOrder.drop (g.objects.length / 2) := by
        rw [hT]
        exact filter_not_mem_take horder_nd _
      rw [← hdrop]
      exact hperm.symm
    · show ((g.objectTimestamps.filter (fun p => ¬ p.1 ∈ T)).map Prod.fst).Perm
        ((g.occ.filter (fun p => ¬ p.1 ∈ T)).map Prod.fst)
      rw [map_filter_fst Prod.fst (fun a => ¬ a ∈ T) g.objectTimestamps,
        map_filter_fst Prod.fst (fun a => ¬ a ∈ T) g.occ]
      exact hInv.ts_perm.filter _

theorem initializeGarden_inv {env : Env} {now1 now2 : Nat} {rs : List (Nat × Nat)}
    {g0 : GardenData} : Inv (initializeGarden env now1 now2 rs g0).g := by
  unfold initializeGarden
  exact addObjectsBatch_inv (clearGarden_inv now1 g0)

/-- Every mutation of the command surface preserves the invariant. -/
theorem Step_inv {env : Env} {g g' : GardenData} (hs : Step env g g') (hInv : Inv g) :
    Inv g' := by
  cases hs with
  | add now r1 r2 objectId g => exact addObject_inv hInv
  | remove now objectId g => exact removeObject_inv hInv
  | batch now objectIds clearFirst rs g => exact addObjectsBatch_inv hInv
  | clear now g => exact clearGarden_inv now g
  | cleanup now g => exact removeOldestHalf_inv hInv
  | reinit now1 now2 rs g => exact initializeGarden_inv

theorem initialGarden_inv (t0 : Nat) : Inv (initialGarden t0) := by
  constructor <;> simp [initialGarden, GardenData.objects, GardenData.locations]

theorem Reachable_inv {env : Env} {g : GardenData} (h : Reachable env g) : Inv g := by
  rcases h with ⟨t0, hsteps⟩
  induction hsteps with
  | refl => exact initialGarden_inv t0
  | tail hs hstep ih => exact Step_inv hstep ih

/-! ### Version bookkeeping -/

theorem placePhase_version (now : Nat) (o : String) (sel : Option String) (ph : Phase) :
    (placePhase now o sel ph).g.stateVersion = ph.g.stateVersion := rfl

theorem dupPhase_version (d : ObjectDef) (o : String) (g : GardenData) :
    (dupPhase d o g).g.stateVersion = g.stateVersion := by
  rcases dupPhase_cases d o g with ⟨he, _⟩ | ⟨A, q, B, _, _, _, he⟩ <;> rw [he]

theorem forcedEvict_version (env : Env) (fl : Option String) (ph : Phase) :
    (forcedEvict env fl ph).g.stateVersion = ph.g.stateVersion := by
  rcases forcedEvict_cases env fl ph with ⟨he, _⟩ | ⟨A, q, B, _, _, _, he⟩ <;> rw [he]

theorem evictOldest_version (ph : Phase) :
    (evictOldest ph).g.stateVersion = ph.g.stateVersion := by
  rcases evictOldest_cases ph with he | ⟨oldest, rest, A, q, B, _, _, _, _, he⟩ <;> rw [he]

theorem capacityPhase_version (ph : Phase) :
    (capacityPhase ph).g.stateVersion = ph.g.stateVersion := by
  unfold capacityPhase
  split
  · exact evictOldest_version ph
  · rfl

theorem capacityPhaseBatch_version (ph : Phase) :
    (capacityPhaseBatch ph).g.stateVersion = ph.g.stateVersion := by
  unfold capacityPhaseBatch
  split
  · exact evictOldest_version ph
  · rfl

theorem forcedPhase_fst (env : Env) (r1 : Nat) (P AP : List String)
    (A0 : List (Option String)) (ph : Phase) :
    (forcedPhase env r1 P AP A0 ph).1 = forcedEvict env (forcedLocationOf r1 P AP ph.g) ph :=
  rfl

theorem forcedPhase_snd (env : Env) (r1 : Nat) (P AP : List String)
    (A0 : List (Option String)) (ph : Phase) :
    (forcedPhase env r1 P AP A0 ph).2 =
      A0 ++ [forcedLocationOf r1 P AP ph.g] := rfl

theorem addPipeline_version (cap : Phase → Phase)
    (hcap : ∀ ph, (cap ph).g.stateVersion = ph.g.stateVersion)
    (env : Env) (now r1 r2 : Nat) (o : String) (d : ObjectDef) (g0 : GardenData) :
    (addPipeline cap env now r1 r2 o d g0).g.stateVersion = g0.stateVersion := by
  unfold addPipeline
  dsimp only
  split
  · rw [placePhase_version, hcap, forcedPhase_fst, forcedEvict_version, dupPhase_version]
  · rw [placePhase_version, hcap, dupPhase_version]

theorem addBatchItem_version (env : Env) (now r1 r2 : Nat) (objectId : String)
    (g0 : GardenData) : (addBatchItem env now r1 r2 objectId g0).1.stateVersion =
      g0.stateVersion := by
  unfold addBatchItem
  split
  · rfl
  · exact addPipeline_version capacityPhaseBatch capacityPhaseBatch_version
      env now r1 r2 objectId _ g0

theorem addBatchLoop_version (env : Env) (now : Nat) :
    ∀ (ids : List String) (rs : List (Nat × Nat)) (g : GardenData),
      (addBatchLoop env now ids rs g).1.stateVersion = g.stateVersion := by
  intro ids
  induction ids with
  | nil => intro rs g; rfl
  | cons objectId rest ih =>
      intro rs g
      show (addBatchLoop env now rest rs.tail
        (addBatchItem env now (rs.headD (0, 0)).1 (rs.headD (0, 0)).2 objectId g).1).1.stateVersion = _
      rw [ih, addBatchItem_version]

theorem addObjectsBatch_version (env : Env) (now : Nat) (ids : List String)
    (clearFirst : Bool) (rs : List (Nat × Nat)) (g : GardenData) :
    (addObjectsBatch env now ids clearFirst rs g).g.stateVersion = g.stateVersion + 1 := by
  unfold addObjectsBatch
  show (addBatchLoop env now ids rs _).1.stateVersion + 1 = g.stateVersion + 1
  rw [addBatchLoop_version]
  cases clearFirst <;> rfl

theorem initializeGarden_version (env : Env) (now1 now2 : Nat) (rs : List (Nat × Nat))
    (g : GardenData) :
    (initializeGarden env now1 now2 rs g).g.stateVersion = g.stateVersion + 2 := by
  unfold initializeGarden
  show (addObjectsBatch env now2 defaultObjects false rs (clearGarden now1 g).1).g.stateVersion = _
  rw [addObjectsBatch_version]
  rfl

/-! ### Claim theorems -/

/-- C1: every reachable garden state (under any catalog) holds at most 22
occupants, its slot ids are pairwise distinct, its object ids are pairwise
distinct, and the timestamp key set equals the occupant object-id set. -/
theorem C1_reachable_invariant (env : Env) (g : GardenData) (h : Reachable env g) :
    g.objects.length ≤ 22 ∧ g.locations.Nodup ∧ g.objects.Nodup ∧
      (∀ o, o ∈ g.objectTimestamps.map Prod.fst ↔ o ∈ g.objects) := by
  have hInv := Reachable_inv h
  exact ⟨hInv.card_le, hInv.loc_nodup, hInv.obj_nodup, fun o => hInv.ts_perm.mem_iff⟩

theorem C1_reachable_invariant_witness :
    Reachable env0 (initialGarden 0) ∧
    ((initialGarden 0).objects.length ≤ 22 ∧ (initialGarden 0).locations.Nodup ∧
      (initialGarden 0).objects.Nodup ∧
      (∀ o, o ∈ (initialGarden 0).objectTimestamps.map Prod.fst ↔
        o ∈ (initialGarden 0).objects)) :=
  ⟨⟨0, Relation.ReflTransGen.refl⟩,
   C1_reachable_invariant env0 (initialGarden 0) ⟨0, Relation.ReflTransGen.refl⟩⟩

/-- C2 (code divergence): the idle-timeout callback the source arms is
`removeOldestHalf`, so firing it on a two-occupant garden (inside the
claimed 1-6 protection band) evicts the oldest occupant instead of leaving
the garden unchanged, and with zero occupants no timer is armed at all, so
no reinitialization can happen. -/
theorem C2_idle_fire_violates_protection :
    gTwo.objects.length = 2 ∧
    (idleFire 7 gTwo).1.objects = ["3"] ∧
    ¬ (idleFire 7 gTwo).1.objects = gTwo.objects ∧
    idleTimerArmed (initialGarden 0) = false := by decide

/-- C5: `addObjectsBatch` bumps the version counter exactly once, for any
item list, any starting state, and either value of `clearFirst`. -/
theorem C5_batch_version_bump (env : Env) (now : Nat) (objectIds : List String)
    (clearFirst : Bool) (rs : List (Nat × Nat)) (g : GardenData) :
    (addObjectsBatch env now objectIds clearFirst rs g).g.stateVersion =
      g.stateVersion + 1 :=
  addObjectsBatch_version env now objectIds clearFirst rs g

/-- C6 (counterexample to the claim as stated): reinitializing bumps the
version twice, not once. -/
theorem C6_reinit_counterexample :
    ¬ (initializeGarden env0 0 0 [] (initialGarden 0)).g.stateVersion =
      (initialGarden 0).stateVersion + 1 := by decide

/-- C6 (amended): `initializeGarden` increases the version counter by
exactly 2: one bump from `clearGarden`, one from the batch add. -/
theorem C6_reinit_double_bump (env : Env) (now1 now2 : Nat) (rs : List (Nat × Nat))
    (g : GardenData) :
    (initializeGarden env now1 now2 rs g).g.stateVersion = g.stateVersion + 2 :=
  initializeGarden_version env now1 now2 rs g

/-- C9: adding an unknown object id and removing an absent object id are
structured failures that change nothing and emit nothing. -/
theorem C9_failed_ops_no_change (env : Env) (now r1 r2 : Nat) (objectId : String)
    (g : GardenData) :
    (env.ObjectLocationData objectId = none →
      addObject env now r1 r2 objectId g =
        { success := false, removedObject := none, events := [],
          snapshot := none, g := g }) ∧
    (objectId ∉ g.objects →
      removeObject env now objectId g =
        { success := false, events := [], snapshot := none, g := g }) := by
  constructor
  · intro h
    unfold addObject
    rw [h]
  · intro h
    unfold removeObject
    have hnone : g.occ.findIdx? (fun p => p.1 = objectId) = none := by
      rw [List.findIdx?_eq_none_iff]
      intro p hp
      have hne : ¬ p.1 = objectId := fun he => h (he ▸ List.mem_map_of_mem Prod.fst hp)
      simpa using hne
    rw [hnone]

theorem C9_failed_ops_no_change_witness :
    addObject env0 0 0 0 "9" (initialGarden 0) =
      { success := false, removedObject := none, events := [],
        snapshot := none, g := initialGarden 0 } ∧
    removeObject env0 0 "9" (initialGarden 0) =
      { success := false, events := [], snapshot := none, g := initialGarden 0 } :=
  ⟨(C9_failed_ops_no_change env0 0 0 0 "9" (initialGarden 0)).1 rfl,
   (C9_failed_ops_no_change env0 0 0 0 "9" (initialGarden 0)).2 (by decide)⟩

/-- C10 (counterexample to the claim as stated): on the no-op path (here an
empty garden) `removeOldestHalf` returns no result object at all, so not
every operation returns a Result carrying a success flag and a snapshot. -/
theorem C10_counterexample : (removeOldestHalf 0 (initialGarden 0)).2 = none := by decide

/-- C10 (amended): `addObject` and `removeObject` carry a snapshot exactly
when they succeed; `addObjectsBatch` and `initializeGarden` always report
success and the batch always carries the resulting snapshot; `clearGarden`
returns only the snapshot of the resulting state (no flag); and
`removeOldestHalf` returns a result object (with snapshot) exactly when it
removes at least one occupant. -/
theorem C10_result_shapes (env : Env) (now n1 n2 r1 r2 : Nat) (objectId : String)
    (ids : List String) (cf : Bool) (rs : List (Nat × Nat)) (g : GardenData) :
    ((addObject env now r1 r2 objectId g).snapshot.isSome ↔
      (addObject env now r1 r2 objectId g).success = true) ∧
    ((removeObject env now objectId g).snapshot.isSome ↔
      (removeObject env now objectId g).success = true) ∧
    (addObjectsBatch env now ids cf rs g).success = true ∧
    (addObjectsBatch env now ids cf rs g).snapshot =
      (addObjectsBatch env now ids cf rs g).g ∧
    (initializeGarden env n1 n2 rs g).success = true ∧
    (clearGarden now g).2.2 = (clearGarden now g).1 ∧
    ((removeOldestHalf now g).2.isSome ↔ 1 ≤ g.objects.length / 2) := by
  refine ⟨?_, ?_, ?_, ?_, ?_, rfl, ?_⟩
  · unfold addObject
    split <;> simp
  · unfold removeObject
    split <;> simp
  · unfold addObjectsBatch
    rfl
  · unfold addObjectsBatch
    rfl
  · unfold initializeGarden
    rfl
  · unfold removeOldestHalf
    by_cases hz : g.objects.length = 0
    · rw [if_pos hz]
      simp
      omega
    · rw [if_neg hz]
      by_cases hn : g.objects.length / 2 = 0
      · rw [if_pos hn]
        simp
        omega
      · rw [if_neg hn]
        simp
        omega

/-- C7: with `k` occupants and `n = floor(k/2)`, `removeOldestHalf` is a
complete no-op (version included) when `n = 0`, and otherwise evicts
exactly the `n` oldest occupants in `addingOrder` order, emits one removal
event per evicted occupant (in that order), and bumps the version exactly
once. -/
theorem C7_removeOldestHalf (now : Nat) (g : GardenData) (hInv : Inv g) :
    (g.objects.length / 2 = 0 → removeOldestHalf now g = (g, none)) ∧
    (1 ≤ g.objects.length / 2 →
      (removeOldestHalf now g).1.objects =
        g.objects.filter (fun a => ¬ a ∈ g.addingOrder.take (g.objects.length / 2)) ∧
      (removeOldestHalf now g).1.addingOrder =
        g.addingOrder.drop (g.objects.length / 2) ∧
      (removeOldestHalf now g).1.stateVersion = g.stateVersion + 1 ∧
      ∃ out, (removeOldestHalf now g).2 = some out ∧
        out.events.map Event.objectId = g.addingOrder.take (g.objects.length / 2) ∧
        out.events.length = g.objects.length / 2 ∧
        ∀ e ∈ out.events, e.isAdd = false) := by
  rcases removeOldestHalf_spec now hInv with ⟨hnoop, hfire⟩
  refine ⟨hnoop, ?_⟩
  intro h1
  rcases hfire h1 with ⟨hfst, out, hsome, hmap, hflag, hcount, _⟩
  have htklen : (g.addingOrder.take (g.objects.length / 2)).length =
      g.objects.length / 2 := by
    rw [List.length_take]
    have hle := hInv.order_perm.length_eq
    simp only [GardenData.objects, List.length_map] at hle ⊢
    omega
  refine ⟨?_, ?_, ?_, out, hsome, hmap, ?_, hflag⟩
  · rw [hfst]
    show (g.occ.filter
      (fun p => ¬ p.1 ∈ g.addingOrder.take (g.objects.length / 2))).map Prod.fst = _
    exact map_filter_fst Prod.fst
      (fun a => ¬ a ∈ g.addingOrder.take (g.objects.length / 2)) g.occ
  · rw [hfst]
  · rw [hfst]
  · have := congrArg List.length hmap
    simpa [htklen] using this

theorem C7_removeOldestHalf_witness :
    1 ≤ g5.objects.length / 2 ∧
    ((removeOldestHalf 10 g5).1.objects =
      g5.objects.filter (fun a => ¬ a ∈ g5.addingOrder.take (g5.objects.length / 2)) ∧
    (removeOldestHalf 10 g5).1.addingOrder =
      g5.addingOrder.drop (g5.objects.length / 2) ∧
    (removeOldestHalf 10 g5).1.stateVersion = g5.stateVersion + 1 ∧
    ∃ out, (removeOldestHalf 10 g5).2 = some out ∧
      out.events.map Event.objectId = g5.addingOrder.take (g5.objects.length / 2) ∧
      out.events.length = g5.objects.length / 2 ∧
      ∀ e ∈ out.events, e.isAdd = false) :=
  have hInv : Inv g5 := ⟨by decide, by decide, by decide, by decide, by decide⟩
  ⟨by decide, (C7_removeOldestHalf 10 g5 hInv).2 (by decide)⟩

theorem capacityPhase_skip {ph : Phase} (h : ¬ ph.removed = none) :
    capacityPhase ph = ph := by
  unfold capacityPhase
  rw [if_neg (fun hc => h hc.2)]

/-- C4: re-adding an already-placed object (whose recorded slot is
consistent with its own permitted locations, as every engine-placed slot
is) leaves exactly one occupant with that id and emits exactly one
`duplicate` removal event followed by the single addition event. -/
theorem C4_duplicate_add (env : Env) (now r1 r2 : Nat) (objId : String)
    (d : ObjectDef) (g : GardenData) (hInv : Inv g)
    (hdef : env.ObjectLocationData objId = some d)
    (hmem : objId ∈ g.objects)
    (hloc : ∀ p ∈ g.occ, p.1 = objId →
      (∀ f, p.2 = some f →
        f ∈ (getPrioritizedLocations env objId d.location).1 ++
            (getPrioritizedLocations env objId d.location).2) ∧
      (p.2 = none →
        (getPrioritizedLocations env objId d.location).1 ++
          (getPrioritizedLocations env objId d.location).2 = [])) :
    (addObject env now r1 r2 objId g).g.objects.count objId = 1 ∧
    ∃ remLoc addLoc, (addObject env now r1 r2 objId g).events =
      [⟨objId, remLoc, false, some "duplicate"⟩, ⟨objId, addLoc, true, none⟩] := by
  unfold addObject
  rw [hdef]
  dsimp only
  unfold addPipeline
  dsimp only
  rcases dupPhase_cases d objId g with ⟨he, hn⟩ | ⟨A, q, B, h1, h3, h4, he⟩
  · exact absurd hmem (by simpa [GardenData.objects] using findIdx?_proj_none hn)
  rw [he]
  dsimp only
  have hq : q ∈ g.occ := by rw [h1]; simp
  have hlocq := hloc q hq h3
  have hnodup1 : ((A ++ q :: B).map Prod.snd).Nodup := by
    have := hInv.loc_nodup
    rwa [GardenData.locations, h1] at this
  have hq2free : q.2 ∉ (A ++ B).map Prod.snd := not_mem_snd_of_split hnodup1
  set g1 : GardenData := { g with
    occ := (A ++ q :: B).eraseIdx A.length,
    addingOrder := g.addingOrder.erase objId,
    objectTimestamps := tsDelete g.objectTimestamps objId } with hg1
  have hg1occ : g1.occ = A ++ B := eraseIdx_append_length A q B
  have hg1loc : g1.locations = (A ++ B).map Prod.snd := by
    rw [GardenData.locations, hg1occ]
  have hnot1 : objId ∉ g1.objects := by
    have h := dupPhase_not_mem (g := g) d objId hInv
    rw [he] at h
    exact h
  set ph1 : Phase := ⟨g1, some ⟨objId, d.name, q.2, "duplicate"⟩,
    [⟨objId, q.2, false, some "duplicate"⟩]⟩ with hph1
  have hskip : ∀ sel, ((placePhase now objId sel (capacityPhase ph1)).g.objects.count
      objId = 1) ∧ (placePhase now objId sel (capacityPhase ph1)).events =
      [⟨objId, q.2, false, some "duplicate"⟩, ⟨objId, sel, true, none⟩] := by
    intro sel
    have hc : capacityPhase ph1 = ph1 := capacityPhase_skip (by rw [hph1]; simp)
    rw [hc]
    constructor
    · show ((g1.occ ++ [(objId, sel)]).map Prod.fst).count objId = 1
      rw [List.map_append, List.count_append]
      have h0 : (g1.occ.map Prod.fst).count objId = 0 :=
        List.count_eq_zero.mpr hnot1
      rw [h0]
      simp
    · rfl
  cases hq2 : q.2 with
  | some f =>
      have hf : f ∈ (getPrioritizedLocations env objId d.location).1 ++
          (getPrioritizedLocations env objId d.location).2 := hlocq.1 f hq2
      have hffree : some f ∉ g1.locations := by
        rw [hg1loc, ← hq2]
        exact hq2free
      have hA0ne : ¬ ((((getPrioritizedLocations env objId d.location).1.filter
            (fun l => ¬ some l ∈ g1.locations)) ++
          ((getPrioritizedLocations env objId d.location).2.filter
            (fun l => ¬ some l ∈ g1.locations))).map some).length = 0 := by
        intro hlen
        have hnil := List.length_eq_zero.mp hlen
        have hfmem : f ∈ ((getPrioritizedLocations env objId d.location).1.filter
              (fun l => ¬ some l ∈ g1.locations)) ++
            ((getPrioritizedLocations env objId d.location).2.filter
              (fun l => ¬ some l ∈ g1.locations)) := by
          rcases List.mem_append.mp hf with hf | hf
          · exact List.mem_append.mpr (Or.inl
              (List.mem_filter.mpr ⟨hf, by simpa using hffree⟩))
          · exact List.mem_append.mpr (Or.inr
              (List.mem_filter.mpr ⟨hf, by simpa using hffree⟩))
        rw [List.map_eq_nil_iff] at hnil
        rw [hnil] at hfmem
        simp at hfmem
      rw [if_neg hA0ne]
      rw [hq2] at hskip
      exact ⟨(hskip _).1, some f, _, (hskip _).2⟩
  | none =>
      have hall : (getPrioritizedLocations env objId d.location).1 ++
          (getPrioritizedLocations env objId d.location).2 = [] := hlocq.2 hq2
      rcases List.append_eq_nil.mp hall with ⟨hP, hF⟩
      have hA0 : ((((getPrioritizedLocations env objId d.location).1.filter
            (fun l => ¬ some l ∈ g1.locations)) ++
          ((getPrioritizedLocations env objId d.location).2.filter
            (fun l => ¬ some l ∈ g1.locations))).map some).length = 0 := by
        rw [hP, hF]
        rfl
      rw [if_pos hA0]
      rw [forcedPhase_fst]
      have hfl : forcedLocationOf r1 (getPrioritizedLocations env objId d.location).1
          ((getPrioritizedLocations env objId d.location).1 ++
            (getPrioritizedLocations env objId d.location).2) ph1.g = none := by
        rw [hall, hP]
        unfold forcedLocationOf
        simp
      rw [hfl]
      have hnoev : forcedEvict env none ph1 = ph1 := by
        rcases forcedEvict_cases env none ph1 with ⟨heq, _⟩ | ⟨A', q', B', h1', h2', _, _⟩
        · exact heq
        · exfalso
          have : q'.2 ∈ ph1.g.locations := by
            rw [GardenData.locations, h1']
            simp
          rw [h2'] at this
          have hnone : (none : Option String) ∉ g1.locations := by
            rw [hg1loc, ← hq2]
            exact hq2free
          exact hnone this
      rw [hnoev]
      rw [hq2] at hskip
      exact ⟨(hskip _).1, none, _, (hskip _).2⟩

theorem C4_duplicate_add_witness :
    (addObject envA 9 0 0 "1" gDup).g.objects.count "1" = 1 ∧
    ∃ remLoc addLoc, (addObject envA 9 0 0 "1" gDup).events =
      [⟨"1", remLoc, false, some "duplicate"⟩, ⟨"1", addLoc, true, none⟩] :=
  C4_duplicate_add envA 9 0 0 "1" ⟨"HandButterfly", ["M"]⟩ gDup
    ⟨by decide, by decide, by decide, by decide, by decide⟩ (by decide) (by decide)
    (by
      intro p hp hp1
      simp only [gDup, List.mem_singleton] at hp
      subst hp
      refine ⟨?_, ?_⟩
      · intro f hf
        simp only [Option.some.injEq] at hf
        subst hf
        decide
      · intro hnone
        simp at hnone)

theorem selectLocation_single (r2 : Nat) (x : Option String) :
    selectLocation r2 [] [x] = x := by
  unfold selectLocation
  simp [Nat.mod_one]

/-- C3: adding a new object all of whose permitted locations are occupied
(and which has at least one permitted location) evicts exactly one current
occupant, whose slot is one of the object's permitted locations (a
prioritized one whenever the object has any), places the new object at the
freed slot, and leaves the occupant count unchanged. -/
theorem C3_forced_displacement (env : Env) (now r1 r2 : Nat) (objId : String)
    (d : ObjectDef) (g : GardenData)
    (hdef : env.ObjectLocationData objId = some d)
    (hnotmem : objId ∉ g.objects)
    (hne : ¬ ((getPrioritizedLocations env objId d.location).1 ++
        (getPrioritizedLocations env objId d.location).2) = [])
    (hocc : ∀ l ∈ (getPrioritizedLocations env objId d.location).1 ++
        (getPrioritizedLocations env objId d.location).2, some l ∈ g.locations) :
    (addObject env now r1 r2 objId g).g.objects.length = g.objects.length ∧
    ∃ f A q B, g.occ = A ++ q :: B ∧ q.2 = some f ∧
      f ∈ (getPrioritizedLocations env objId d.location).1 ++
          (getPrioritizedLocations env objId d.location).2 ∧
      (¬ (getPrioritizedLocations env objId d.location).1 = [] →
        f ∈ (getPrioritizedLocations env objId d.location).1) ∧
      (addObject env now r1 r2 objId g).g.occ = (A ++ B) ++ [(objId, some f)] ∧
      (addObject env now r1 r2 objId g).events =
        [⟨q.1, some f, false, some "forced_displacement"⟩,
         ⟨objId, some f, true, none⟩] := by
  set P := (getPrioritizedLocations env objId d.location).1 with hP
  set F := (getPrioritizedLocations env objId d.location).2 with hF
  unfold addObject
  rw [hdef]
  dsimp only
  unfold addPipeline
  dsimp only
  rcases dupPhase_cases d objId g with ⟨he, _⟩ | ⟨A, q, B, h1, h3, _, he⟩
  swap
  · exact absurd (by
      rw [GardenData.objects, h1, ← h3]
      exact List.mem_map_of_mem Prod.fst (by simp)) hnotmem
  rw [he]
  dsimp only
  have hAPL : P.filter (fun l => ¬ some l ∈ g.locations) = [] := by
    rw [List.filter_eq_nil_iff]
    intro l hl
    simpa using hocc l (List.mem_append.mpr (Or.inl hl))
  have hAFL : F.filter (fun l => ¬ some l ∈ g.locations) = [] := by
    rw [List.filter_eq_nil_iff]
    intro l hl
    simpa using hocc l (List.mem_append.mpr (Or.inr hl))
  rw [if_pos (by rw [hAPL, hAFL]; rfl)]
  rw [forcedPhase_fst, forcedPhase_snd]
  have hflP : ∃ f, forcedLocationOf r1 P (P ++ F) g = some f ∧ f ∈ P ++ F ∧
      (¬ P = [] → f ∈ P) := by
    unfold forcedLocationOf
    have hoccP : P.filter (fun l => some l ∈ g.locations) = P := by
      rw [List.filter_eq_self]
      intro l hl
      simpa using hocc l (List.mem_append.mpr (Or.inl hl))
    rw [hoccP]
    by_cases hPlen : 0 < P.length
    · rcases get?_mod_mem P (List.length_pos.mp hPlen) r1 with ⟨f, hget, hfmem⟩
      rw [if_pos hPlen, hget]
      exact ⟨f, rfl, List.mem_append.mpr (Or.inl hfmem), fun _ => hfmem⟩
    · rw [if_neg hPlen]
      rcases get?_mod_mem (P ++ F) hne r1 with ⟨f, hget, hfmem⟩
      rw [hget]
      have hPnil : P = [] := by
        cases hc : P with
        | nil => rfl
        | cons a t => rw [hc] at hPlen; simp at hPlen
      exact ⟨f, rfl, hfmem, fun hc => absurd hPnil hc⟩
  rcases hflP with ⟨f, hfl, hfALL, hfP⟩
  rw [hfl]
  rcases forcedEvict_cases env (some f)
      ⟨g, none, []⟩ with ⟨_, hnm⟩ | ⟨A, q, B, h1, h2, h4, he2⟩
  · exact absurd (hocc f hfALL) hnm
  rw [he2]
  dsimp only
  have hrm : ¬ (some (⟨q.1, ((env.ObjectLocationData q.1).map ObjectDef.name).getD "",
      some f, "forced_displacement"⟩ : RemovedInfo)) = none := by simp
  rw [capacityPhase_skip hrm]
  rw [hAPL, hAFL]
  have hsel : selectLocation r2 [] ((([] : List String) ++ []).map some ++ [some f]) =
      some f := selectLocation_single r2 (some f)
  rw [hsel]
  have hocc1 : g.occ = A ++ q :: B := h1
  refine ⟨?_, f, A, q, B, hocc1, h2, hfALL, hfP, ?_, ?_⟩
  · show ((((A ++ q :: B).eraseIdx A.length) ++ [(objId, some f)]).map Prod.fst).length =
      g.objects.length
    rw [eraseIdx_append_length, GardenData.objects, hocc1]
    simp
  · show ((A ++ q :: B).eraseIdx A.length) ++ [(objId, some f)] = (A ++ B) ++ [(objId, some f)]
    rw [eraseIdx_append_length]
  · rfl

theorem C3_forced_displacement_witness :
    (addObject envA 9 0 0 "7" gFull).g.objects.length = gFull.objects.length ∧
    ∃ f A q B, gFull.occ = A ++ q :: B ∧ q.2 = some f ∧
      f ∈ (getPrioritizedLocations envA "7"
            (ObjectDef.mk "EggEye" ["M"]).location).1 ++
          (getPrioritizedLocations envA "7"
            (ObjectDef.mk "EggEye" ["M"]).location).2 ∧
      (¬ (getPrioritizedLocations envA "7"
            (ObjectDef.mk "EggEye" ["M"]).location).1 = [] →
        f ∈ (getPrioritizedLocations envA "7"
            (ObjectDef.mk "EggEye" ["M"]).location).1) ∧
      (addObject envA 9 0 0 "7" gFull).g.occ = (A ++ B) ++ [("7", some f)] ∧
      (addObject envA 9 0 0 "7" gFull).events =
        [⟨q.1, some f, false, some "forced_displacement"⟩,
         ⟨"7", some f, true, none⟩] :=
  C3_forced_displacement envA 9 0 0 "7" (ObjectDef.mk "EggEye" ["M"]) gFull
    (by decide) (by decide) (by decide) (by decide)

/-! ### C8: the batch loop refines iterated single adds -/

theorem eq_withMeta_of_core {g g' : GardenData} (h : coreOf g' = coreOf g) :
    g' = withMeta g'.stateVersion g'.lastModified g := by
  cases g
  cases g'
  simp [coreOf] at h
  simp [withMeta]
  exact ⟨h.1, h.2.1, h.2.2⟩

theorem dupPhase_meta (d : ObjectDef) (o : String) (v m : Nat) (g : GardenData) :
    dupPhase d o (withMeta v m g) = phMeta v m (dupPhase d o g) := by
  unfold dupPhase withMeta phMeta
  dsimp only
  cases h : g.occ.findIdx? (fun p => p.1 = o) <;> rfl

theorem forcedLocationOf_meta (r1 : Nat) (P AP : List String) (v m : Nat)
    (g : GardenData) :
    forcedLocationOf r1 P AP (withMeta v m g) = forcedLocationOf r1 P AP g := rfl

theorem forcedEvict_meta (env : Env) (fl : Option String) (v m : Nat) (ph : Phase) :
    forcedEvict env fl (phMeta v m ph) = phMeta v m (forcedEvict env fl ph) := by
  unfold forcedEvict phMeta withMeta
  dsimp only
  cases h : ph.g.occ.findIdx? (fun p => p.2 = fl) <;> rfl

theorem evictOldest_meta (v m : Nat) (ph : Phase) :
    evictOldest (phMeta v m ph) = phMeta v m (evictOldest ph) := by
  obtain ⟨⟨occ, ao, ts, sv, lm⟩, rm, evs⟩ := ph
  unfold evictOldest phMeta withMeta
  dsimp only
  cases ao with
  | nil => rfl
  | cons oldest rest =>
      simp only [List.head?_cons]
      cases h2 : occ.findIdx? (fun p => p.1 = oldest) <;> rfl

theorem phMeta_g (v m : Nat) (ph : Phase) : (phMeta v m ph).g = withMeta v m ph.g := rfl

theorem phMeta_locations (v m : Nat) (ph : Phase) :
    (phMeta v m ph).g.locations = ph.g.locations := rfl

theorem phMeta_objects_length (v m : Nat) (ph : Phase) :
    (phMeta v m ph).g.objects.length = ph.g.objects.length := rfl

theorem capacityPhase_meta (v m : Nat) (ph : Phase) :
    capacityPhase (phMeta v m ph) = phMeta v m (capacityPhase ph) := by
  unfold capacityPhase
  by_cases h : 22 ≤ ph.g.objects.length ∧ ph.removed = none
  · rw [if_pos h, if_pos (show 22 ≤ (phMeta v m ph).g.objects.length ∧
      (phMeta v m ph).removed = none from h), evictOldest_meta]
  · rw [if_neg h, if_neg (show ¬ (22 ≤ (phMeta v m ph).g.objects.length ∧
      (phMeta v m ph).removed = none) from h)]

theorem capacityPhaseBatch_meta (v m : Nat) (ph : Phase) :
    capacityPhaseBatch (phMeta v m ph) = phMeta v m (capacityPhaseBatch ph) := by
  unfold capacityPhaseBatch
  by_cases h : 22 ≤ ph.g.objects.length
  · rw [if_pos (show 22 ≤ (phMeta v m ph).g.objects.length from h), if_pos h,
      evictOldest_meta]
  · rw [if_neg (show ¬ 22 ≤ (phMeta v m ph).g.objects.length from h), if_neg h]

theorem placePhase_meta (now : Nat) (o : String) (sel : Option String) (v m : Nat)
    (ph : Phase) :
    placePhase now o sel (phMeta v m ph) = phMeta v m (placePhase now o sel ph) := rfl

theorem addPipeline_meta (cap : Phase → Phase) (v m : Nat)
    (hcap : ∀ ph, cap (phMeta v m ph) = phMeta v m (cap ph))
    (env : Env) (now r1 r2 : Nat) (o : String) (d : ObjectDef) (g : GardenData) :
    addPipeline cap env now r1 r2 o d (withMeta v m g) =
      phMeta v m (addPipeline cap env now r1 r2 o d g) := by
  unfold addPipeline
  dsimp only
  rw [dupPhase_meta]
  simp only [phMeta_locations]
  split_ifs with hc
  · rw [forcedPhase_fst, forcedPhase_snd, forcedPhase_fst, forcedPhase_snd]
    simp only [phMeta_g, forcedLocationOf_meta]
    rw [forcedEvict_meta, hcap, placePhase_meta]
  · rw [hcap, placePhase_meta]

theorem capacity_eq {ph : Phase} (h : 22 ≤ ph.g.objects.length → ph.removed = none) :
    capacityPhase ph = capacityPhaseBatch ph := by
  unfold capacityPhase capacityPhaseBatch
  by_cases hc : 22 ≤ ph.g.objects.length
  · rw [if_pos ⟨hc, h hc⟩, if_pos hc]
  · rw [if_neg (fun hx => hc hx.1), if_neg hc]

/-- The only textual difference between the single add and the batch item,
the capacity-check condition, is immaterial on gardens within capacity. -/
theorem addPipeline_cap_eq (env : Env) (now r1 r2 : Nat) (o : String) (d : ObjectDef)
    {g : GardenData} (hlen : g.occ.length ≤ 22) :
    addPipeline capacityPhase env now r1 r2 o d g =
      addPipeline capacityPhaseBatch env now r1 r2 o d g := by
  have hph1 : (dupPhase d o g).removed.isSome → (dupPhase d o g).g.occ.length ≤ 21 := by
    intro hs
    have := dupPhase_len_some hs
    omega
  have hsub1 : (dupPhase d o g).g.occ.length ≤ 22 :=
    Nat.le_trans (dupPhase_sublist d o g).length_le hlen
  unfold addPipeline
  dsimp only
  split_ifs with hc
  · rw [forcedPhase_fst, forcedPhase_snd]
    set fl := forcedLocationOf r1 (getPrioritizedLocations env o d.location).1
      ((getPrioritizedLocations env o d.location).1 ++
        (getPrioritizedLocations env o d.location).2) (dupPhase d o g).g with hfl
    set X := forcedEvict env fl (dupPhase d o g) with hX
    rw [capacity_eq ?_]
    intro h22
    by_contra hne
    have hs : X.removed.isSome := Option.ne_none_iff_isSome.mp hne
    have h22' : 22 ≤ X.g.occ.length := by
      simpa [GardenData.objects] using h22
    have hlen2 := @forcedEvict_len_some env fl (dupPhase d o g)
      (by rw [← hX]; exact hs)
    rw [← hX] at hlen2
    rcases hlen2 with hlen2 | ⟨heq, hrm1⟩
    · omega
    · have hp := hph1 hrm1
      rw [heq] at h22'
      omega
  · rw [capacity_eq ?_]
    intro h22
    by_contra hne
    have hs := Option.ne_none_iff_isSome.mp hne
    have hp := hph1 hs
    have h22' : 22 ≤ (dupPhase d o g).g.occ.length := by
      simpa [GardenData.objects] using h22
    omega

set_option maxHeartbeats 2000000 in
/-- One batch item equals one single add whose input differs only in the
metadata fields, which no placement decision reads. -/
theorem addBatchItem_eq (env : Env) (now r1 r2 : Nat) (o : String) (v m : Nat)
    {gb : GardenData} (hlen : gb.occ.length ≤ 22) :
    coreOf (addBatchItem env now r1 r2 o gb).1 =
      coreOf (addObject env now r1 r2 o (withMeta v m gb)).g ∧
    (addBatchItem env now r1 r2 o gb).2.1 =
      (addObject env now r1 r2 o (withMeta v m gb)).events := by
  unfold addBatchItem addObject
  cases hdef : env.ObjectLocationData o with
  | none => exact ⟨rfl, rfl⟩
  | some d =>
      dsimp only
      rw [addPipeline_meta capacityPhase v m (fun ph => capacityPhase_meta v m ph)
        env now r1 r2 o d gb]
      rw [addPipeline_cap_eq env now r1 r2 o d hlen]
      exact ⟨rfl, rfl⟩

theorem addBatchLoop_eq_iterate (env : Env) (now : Nat) :
    ∀ (ids : List String) (rs : List (Nat × Nat)) {gb gs : GardenData},
      Inv gb → coreOf gs = coreOf gb →
      coreOf (addBatchLoop env now ids rs gb).1 =
        coreOf (iterateAdds env now ids rs gs).1 ∧
      (addBatchLoop env now ids rs gb).2.1 = (iterateAdds env now ids rs gs).2 := by
  intro ids
  induction ids with
  | nil =>
      intro rs gb gs hInv hcore
      exact ⟨hcore.symm, rfl⟩
  | cons o rest ih =>
      intro rs gb gs hInv hcore
      have hlen := card_occ_le hInv
      have hgs : gs = withMeta gs.stateVersion gs.lastModified gb :=
        eq_withMeta_of_core hcore
      rcases addBatchItem_eq env now (rs.headD (0, 0)).1 (rs.headD (0, 0)).2 o
        gs.stateVersion gs.lastModified hlen with ⟨hc, he⟩
      rw [← hgs] at hc he
      have hInv' : Inv (addBatchItem env now (rs.headD (0, 0)).1
          (rs.headD (0, 0)).2 o gb).1 := addBatchItem_inv hInv
      rcases ih rs.tail hInv' hc.symm with ⟨hc2, he2⟩
      refine ⟨hc2, ?_⟩
      show (addBatchItem env now (rs.headD (0, 0)).1 (rs.headD (0, 0)).2 o gb).2.1 ++
        (addBatchLoop env now rest rs.tail _).2.1 = _
    
      rw [he, he2]
      rfl

/-- C8: with `clearFirst = false` and matching injected randomness, the
batch operation produces exactly the occupants, slot assignments, adding
order, timestamps, and event sequence of applying the single `addObject`
algorithm to each id in order; only the metadata bookkeeping differs. -/
theorem C8_batch_refines_iterated_add (env : Env) (now : Nat) (ids : List String)
    (rs : List (Nat × Nat)) (g : GardenData) (hInv : Inv g) :
    (addObjectsBatch env now ids false rs g).g.occ =
      (iterateAdds env now ids rs g).1.occ ∧
    (addObjectsBatch env now ids false rs g).g.addingOrder =
      (iterateAdds env now ids rs g).1.addingOrder ∧
    (addObjectsBatch env now ids false rs g).g.objectTimestamps =
      (iterateAdds env now ids rs g).1.objectTimestamps ∧
    (addObjectsBatch env now ids false rs g).events =
      (iterateAdds env now ids rs g).2 := by
  rcases addBatchLoop_eq_iterate env now ids rs hInv rfl with ⟨hc, he⟩
  have h1 := congrArg Prod.fst hc
  have h2 := congrArg (fun x => x.2.1) hc
  have h3 := congrArg (fun x => x.2.2) hc
  simp only [coreOf] at h1 h2 h3
  refine ⟨?_, ?_, ?_, ?_⟩
  · show (addBatchLoop env now ids rs g).1.occ = _
    exact h1
  · show (addBatchLoop env now ids rs g).1.addingOrder = _
    exact h2
  · show (addBatchLoop env now ids rs g).1.objectTimestamps = _
    exact h3
  · show ([] : List Event) ++ (addBatchLoop env now ids rs g).2.1 = _
    rw [List.nil_append]
    exact he

theorem C8_batch_refines_iterated_add_witness :
    (addObjectsBatch envA 3 ["1"] false [] (initialGarden 0)).g.occ =
      (iterateAdds envA 3 ["1"] [] (initialGarden 0)).1.occ ∧
    (addObjectsBatch envA 3 ["1"] false [] (initialGarden 0)).g.addingOrder =
      (iterateAdds envA 3 ["1"] [] (initialGarden 0)).1.addingOrder ∧
    (addObjectsBatch envA 3 ["1"] false [] (initialGarden 0)).g.objectTimestamps =
      (iterateAdds envA 3 ["1"] [] (initialGarden 0)).1.objectTimestamps ∧
    (addObjectsBatch envA 3 ["1"] false [] (initialGarden 0)).events =
      (iterateAdds envA 3 ["1"] [] (initialGarden 0)).2 :=
  C8_batch_refines_iterated_add envA 3 ["1"] [] (initialGarden 0)
    ⟨by decide, by decide, by decide, by decide, by decide⟩

end Dali
